import Mathlib

/-! # Rotary encoder driver (`Core/Src/rotary.c`, `Core/Inc/rotary.h`)

A shallow embedding of the table-driven quadrature decoder.

* `uint8_t` values are natural numbers; every value that occurs is a table
  entry, a mask of one, or a 2-bit pin pattern, so no operation wraps.
* The build switch `ROTARY_HALF_STEP` is the Boolean argument `half_step`
  of `state_table`, `Rotary_Process`, ...: `true` selects the 6-row table,
  `false` the 7-row table.
* `void *` contexts are natural numbers.  A pin reader is a function of the
  hardware situation `W` at the time of the call and of its context; it has
  no effect on anything.
* An array access outside the table is undefined in C: the lookup returns
  `none` there.
-/

namespace Rotary

/-! ## Return values (`rotary.h`) -/

def ROTARY_DIR_NONE : Nat := 0x00
def ROTARY_DIR_CW : Nat := 0x10
def ROTARY_DIR_CCW : Nat := 0x20

/-! ## Types (`rotary.h`) -/

/-- Opaque `void *user_data`. -/
abbrev VoidPtr := Nat

/-- The C type `bool (*)(void *user_data)`; `W` is what the hardware looks
like at the moment of the call. -/
abbrev Rotary_ReadPinFunc (W : Type) := W → VoidPtr → Bool

structure Rotary_HandleTypeDef (W : Type) where
  read_pin_a : Rotary_ReadPinFunc W
  user_data_a : VoidPtr
  read_pin_b : Rotary_ReadPinFunc W
  user_data_b : VoidPtr
  state : Nat

/-! ## State numbers and tables (`rotary.c`) -/

def R_START : Nat := 0x0

namespace HalfStep

def R_CCW_BEGIN : Nat := 0x1
def R_CW_BEGIN : Nat := 0x2
def R_START_M : Nat := 0x3
def R_CW_BEGIN_M : Nat := 0x4
def R_CCW_BEGIN_M : Nat := 0x5

/-- The table compiled when `ROTARY_HALF_STEP` is defined: `state_table[6][4]`. -/
def state_table : List (List Nat) :=
  [ /- R_START       -/ [R_START_M, R_CW_BEGIN, R_CCW_BEGIN, R_START],
    /- R_CCW_BEGIN   -/ [R_START_M ||| ROTARY_DIR_CCW, R_START, R_CCW_BEGIN, R_START],
    /- R_CW_BEGIN    -/ [R_START_M ||| ROTARY_DIR_CW, R_CW_BEGIN, R_START, R_START],
    /- R_START_M     -/ [R_START_M, R_CCW_BEGIN_M, R_CW_BEGIN_M, R_START],
    /- R_CW_BEGIN_M  -/ [R_START_M, R_START_M, R_CW_BEGIN_M, R_START ||| ROTARY_DIR_CW],
    /- R_CCW_BEGIN_M -/ [R_START_M, R_CCW_BEGIN_M, R_START_M, R_START ||| ROTARY_DIR_CCW] ]

end HalfStep

namespace FullStep

def R_CW_FINAL : Nat := 0x1
def R_CW_BEGIN : Nat := 0x2
def R_CW_NEXT : Nat := 0x3
def R_CCW_BEGIN : Nat := 0x4
def R_CCW_FINAL : Nat := 0x5
def R_CCW_NEXT : Nat := 0x6

/-- The table compiled when `ROTARY_HALF_STEP` is not defined: `state_table[7][4]`. -/
def state_table : List (List Nat) :=
  [ /- R_START     -/ [R_START, R_CW_BEGIN, R_CCW_BEGIN, R_START],
    /- R_CW_FINAL  -/ [R_CW_NEXT, R_START, R_CW_FINAL, R_START ||| ROTARY_DIR_CW],
    /- R_CW_BEGIN  -/ [R_CW_NEXT, R_CW_BEGIN, R_START, R_START],
    /- R_CW_NEXT   -/ [R_CW_NEXT, R_CW_BEGIN, R_CW_FINAL, R_START],
    /- R_CCW_BEGIN -/ [R_CCW_NEXT, R_START, R_CCW_BEGIN, R_START],
    /- R_CCW_FINAL -/ [R_CCW_NEXT, R_CCW_FINAL, R_START, R_START ||| ROTARY_DIR_CCW],
    /- R_CCW_NEXT  -/ [R_CCW_NEXT, R_CCW_FINAL, R_CCW_BEGIN, R_START] ]

end FullStep

/-- The table selected by the `#ifdef ROTARY_HALF_STEP ... #else ... #endif`. -/
def state_table (half_step : Bool) : List (List Nat) :=
  if half_step then HalfStep.state_table else FullStep.state_table

/-- The C expression `state_table[row][col]`; `none` outside the array. -/
def tableAt (half_step : Bool) (row col : Nat) : Option Nat :=
  match (state_table half_step)[row]? with
  | none => none
  | some cells => cells[col]?

/-! ## Functions (`rotary.c`) -/

variable {W : Type}

def Rotary_Init (hrotary : Rotary_HandleTypeDef W)
    (read_pin_a : Rotary_ReadPinFunc W) (user_data_a : VoidPtr)
    (read_pin_b : Rotary_ReadPinFunc W) (user_data_b : VoidPtr) :
    Rotary_HandleTypeDef W :=
  let hrotary := { hrotary with read_pin_a := read_pin_a }
  let hrotary := { hrotary with user_data_a := user_data_a }
  let hrotary := { hrotary with read_pin_b := read_pin_b }
  let hrotary := { hrotary with user_data_b := user_data_b }
  { hrotary with state := R_START }

/-- One call of `Rotary_Process` while the hardware is in situation `w`:
the return value and the handle afterwards. -/
def Rotary_Process (half_step : Bool) (w : W) (hrotary : Rotary_HandleTypeDef W) :
    Option (Nat × Rotary_HandleTypeDef W) :=
  let pin_a_state : Nat := if hrotary.read_pin_a w hrotary.user_data_a then 1 else 0
  let pin_b_state : Nat := if hrotary.read_pin_b w hrotary.user_data_b then 1 else 0
  let pinstate : Nat := (pin_b_state <<< 1) ||| pin_a_state
  match tableAt half_step (hrotary.state &&& 0x0F) pinstate with
  | none => none
  | some entry =>
    let hrotary := { hrotary with state := entry }
    some (hrotary.state &&& 0x30, hrotary)

/-- One call of `Rotary_ReadPins` while the hardware is in situation `w`:
the return value and the handle afterwards. -/
def Rotary_ReadPins (w : W) (hrotary : Rotary_HandleTypeDef W) :
    Nat × Rotary_HandleTypeDef W :=
  let pin_a : Nat := if hrotary.read_pin_a w hrotary.user_data_a then 1 else 0
  let pin_b : Nat := if hrotary.read_pin_b w hrotary.user_data_b then 1 else 0
  ((pin_b <<< 1) ||| pin_a, hrotary)

/-! ## Call sequences -/

/-- Successive `Rotary_Process` calls on one handle, one per hardware
situation in the list: the return values in order and the final handle. -/
def processCalls (half_step : Bool) :
    List W → Rotary_HandleTypeDef W → Option (List Nat × Rotary_HandleTypeDef W)
  | [], hrotary => some ([], hrotary)
  | w :: ws, hrotary =>
    match Rotary_Process half_step w hrotary with
    | none => none
    | some (r, hrotary1) =>
      match processCalls half_step ws hrotary1 with
      | none => none
      | some (rs, hrotary2) => some (r :: rs, hrotary2)

/-- Successive `Rotary_ReadPins` calls on one handle: the final handle. -/
def readPinsCalls : List W → Rotary_HandleTypeDef W → Rotary_HandleTypeDef W
  | [], hrotary => hrotary
  | w :: ws, hrotary => readPinsCalls ws (Rotary_ReadPins w hrotary).2

/-- The pattern `(B << 1) | A` that a call made in situation `w` samples. -/
def sampled (hrotary : Rotary_HandleTypeDef W) (w : W) : Nat :=
  (Rotary_ReadPins w hrotary).1

/-- The number of rows of the selected table. -/
def numStates (half_step : Bool) : Nat := (state_table half_step).length

/-! ## A test bench: two wires -/

/-- The levels of the two phase wires. -/
structure Wires where
  a : Bool
  b : Bool

def read_rotary_a : Rotary_ReadPinFunc Wires := fun w _ => w.a
def read_rotary_b : Rotary_ReadPinFunc Wires := fun w _ => w.b

/-- The wire levels whose pattern `(B << 1) | A` is `p`. -/
def wiresOf (p : Nat) : Wires := { a := p % 2 == 1, b := (p / 2) % 2 == 1 }

/-- A handle bound to the two wires, in sub-state `s`. -/
def benchHandle (s : Nat) : Rotary_HandleTypeDef Wires :=
  { read_pin_a := read_rotary_a, user_data_a := 0,
    read_pin_b := read_rotary_b, user_data_b := 0, state := s }

/-- A freshly initialised handle bound to the two wires. -/
def benchInit : Rotary_HandleTypeDef Wires :=
  Rotary_Init (benchHandle 0xFF) read_rotary_a 0 read_rotary_b 0

/-! ## The table walk on numbers -/

/-- The walk through the table that a run of `Rotary_Process` calls
performs, on the stored state and the sampled patterns alone: the return
values in order and the final stored state. -/
def tableRun (half_step : Bool) : List Nat → Nat → Option (List Nat × Nat)
  | [], s => some ([], s)
  | p :: ps, s =>
    match tableAt half_step (s &&& 0x0F) p with
    | none => none
    | some entry =>
      match tableRun half_step ps entry with
      | none => none
      | some (rs, s1) => some ((entry &&& 0x30) :: rs, s1)

/-- The table cell as a number, `0` outside the array. -/
def cell (half_step : Bool) (row col : Nat) : Nat :=
  (tableAt half_step row col).getD 0

/-! ## The walk as total functions -/

/-- The stored state after one call made with stored state `s` that samples
`p`: the looked-up table entry (`0` where the lookup is outside the table). -/
def nextState (half_step : Bool) (s p : Nat) : Nat :=
  cell half_step (s &&& 0x0F) p

/-- The stored state after a run of calls, one per sampled pattern. -/
def finalState (half_step : Bool) : List Nat → Nat → Nat
  | [], s => s
  | p :: ps, s => finalState half_step ps (nextState half_step s p)

/-- The return values of a run of calls, one per sampled pattern. -/
def events (half_step : Bool) : List Nat → Nat → List Nat
  | [], _ => []
  | p :: ps, s =>
    (nextState half_step s p &&& 0x30) :: events half_step ps (nextState half_step s p)

/-! ## Input sequences -/

/-- Two patterns differ in exactly one phase bit. -/
def exactlyOneBit (q p : Nat) : Bool := (q ^^^ p) == 1 || (q ^^^ p) == 2

/-- Two patterns differ in at most one phase bit. -/
def atMostOneBit (q p : Nat) : Bool := q == p || exactlyOneBit q p

/-- Two patterns differ in both phase bits (00 and 11, or 01 and 10). -/
def bothBits (q p : Nat) : Bool := (q ^^^ p) == 3

/-- One step of a legal gray-code history. -/
abbrev GrayStep (q p : Nat) : Prop := atMostOneBit q p = true

/-- The successor of a pattern `(B << 1) | A` on the clockwise cycle
0 -> 2 -> 3 -> 1 -> 0 (`cw = true`) or on the counter-clockwise cycle
0 -> 1 -> 3 -> 2 -> 0 (`cw = false`). -/
def rotNext (cw : Bool) (p : Nat) : Nat :=
  if cw then
    match p with
    | 0 => 2
    | 2 => 3
    | 3 => 1
    | _ => 0
  else
    match p with
    | 0 => 1
    | 1 => 3
    | 3 => 2
    | _ => 0

/-- One step of a clean rotation: one edge per call. -/
abbrev RotStep (cw : Bool) (q p : Nat) : Prop := p = rotNext cw q

/-- Every two neighbours of a list are related by `r`. -/
def chainB (r : Nat → Nat → Bool) : List Nat → Bool
  | [] => true
  | [_] => true
  | a :: b :: l => r a b && chainB r (b :: l)

/-- A legal gray-code history: each sample differs from the previous one in
at most one phase bit; the first sample is arbitrary. -/
def grayLegal (ps : List Nat) : Bool := chainB atMostOneBit ps

/-- A clean rotation: every sample after the first is the successor of the
previous one on the cycle chosen by `cw`. -/
def cleanRotation (cw : Bool) (ps : List Nat) : Bool :=
  chainB (fun q p => p == rotNext cw q) ps

/-- The samples of `k` bounces between `p` and `q`: `p, q` repeated `k` times. -/
def bounces (p q : Nat) : Nat → List Nat
  | 0 => []
  | k + 1 => p :: q :: bounces p q k

/-- The pairs (sub-state, last sampled pattern) that a legal gray-code
history from Start can be in. -/
def grayStates (half_step : Bool) : List (Nat × Nat) :=
  if half_step then [(0, 3), (1, 2), (2, 1), (3, 0), (4, 2), (5, 1)]
  else [(0, 0), (0, 3), (1, 2), (2, 1), (3, 0), (4, 2), (5, 1), (6, 0)]

/-- A rotation that never goes backwards: every sample after the first is
equal to the previous one or its successor on the cycle chosen by `cw`. -/
def oneWay (cw : Bool) (ps : List Nat) : Bool :=
  chainB (fun q p => p == q || p == rotNext cw q) ps

/-- The direction event that a rotation on the cycle chosen by `cw` must not
produce: `ROTARY_DIR_CCW` on the clockwise cycle, `ROTARY_DIR_CW` on the
counter-clockwise one. -/
def wrongWay (cw : Bool) : Nat := if cw then ROTARY_DIR_CCW else ROTARY_DIR_CW

/-- The least number of calls after which a call made in row `row` can
return a direction event. -/
def callsToEvent (half_step : Bool) (row : Nat) : Nat :=
  if half_step then
    match row with
    | 0 => 2
    | 3 => 2
    | _ => 1
  else
    match row with
    | 0 => 4
    | 2 => 3
    | 4 => 3
    | 3 => 2
    | 6 => 2
    | _ => 1

/-! ## Basic facts -/

theorem sampled_lt_four (hrotary : Rotary_HandleTypeDef W) (w : W) :
    sampled hrotary w < 4 := by
  simp only [sampled, Rotary_ReadPins]
  cases hrotary.read_pin_a w hrotary.user_data_a <;>
    cases hrotary.read_pin_b w hrotary.user_data_b <;> decide

theorem Rotary_Process_eq (half_step : Bool) (w : W) (hrotary : Rotary_HandleTypeDef W) :
    Rotary_Process half_step w hrotary =
      (tableAt half_step (hrotary.state &&& 0x0F) (sampled hrotary w)).map
        (fun entry => (entry &&& 0x30, { hrotary with state := entry })) := by
  simp only [Rotary_Process, sampled, Rotary_ReadPins]
  split <;> simp_all

theorem processCalls_eq (half_step : Bool) (ws : List W) (hrotary : Rotary_HandleTypeDef W) :
    processCalls half_step ws hrotary =
      (tableRun half_step (ws.map (sampled hrotary)) hrotary.state).map
        (fun r => (r.1, { hrotary with state := r.2 })) := by
  induction ws generalizing hrotary with
  | nil => rfl
  | cons w ws ih =>
    simp only [processCalls, List.map_cons, tableRun, Rotary_Process_eq]
    cases hc : tableAt half_step (hrotary.state &&& 0x0F) (sampled hrotary w) with
    | none => rfl
    | some entry =>
      simp only [Option.map_some']
      rw [ih]
      have hs : sampled { hrotary with state := entry } = sampled hrotary := rfl
      simp only [hs]
      cases tableRun half_step (ws.map (sampled hrotary)) entry <;> rfl

theorem tableRun_cons_mask (half_step : Bool) (p : Nat) (ps : List Nat) (s : Nat) :
    tableRun half_step (p :: ps) s = tableRun half_step (p :: ps) (s &&& 0x0F) := by
  have hm : (s &&& 0x0F) &&& 0x0F = s &&& 0x0F := by
    rw [Nat.land_assoc]; rfl
  simp only [tableRun, hm]

/-- From any stored state whose low nibble is `R_START`, a non-empty run is
the run from `R_START`. -/
theorem tableRun_of_start (half_step : Bool) (p : Nat) (ps : List Nat) (s : Nat)
    (hs : s &&& 0x0F = R_START) :
    tableRun half_step (p :: ps) s = tableRun half_step (p :: ps) R_START := by
  rw [tableRun_cons_mask, hs]

/-- Return values and final stored state of a run of calls that starts in
sub-state Start, from the sampled patterns. -/
theorem processCalls_of_start (half_step : Bool) (ws : List W)
    (hrotary : Rotary_HandleTypeDef W) (p : Nat) (ps : List Nat)
    (hs : hrotary.state &&& 0x0F = R_START) (hp : ws.map (sampled hrotary) = p :: ps) :
    (processCalls half_step ws hrotary).map (fun r => (r.1, r.2.state)) =
      tableRun half_step (p :: ps) R_START := by
  rw [processCalls_eq, hp, tableRun_of_start half_step p ps hrotary.state hs]
  cases tableRun half_step (p :: ps) R_START <;> rfl

/-! ## Facts read off the two tables -/

/-- Every cell of a valid row exists, carries at most one of the two event
flags in bits 4-5, and names a valid row in its low nibble. -/
theorem cell_facts (half_step : Bool) :
    ∀ s, s < numStates half_step → ∀ p, p < 4 →
      tableAt half_step s p = some (cell half_step s p) ∧
      cell half_step s p &&& 0x0F < numStates half_step ∧
      (cell half_step s p &&& 0x30 = ROTARY_DIR_NONE ∨
        cell half_step s p &&& 0x30 = ROTARY_DIR_CW ∨
        cell half_step s p &&& 0x30 = ROTARY_DIR_CCW) := by
  cases half_step <;> decide

/-- The cell reached by a second lookup in the same column carries no event flag. -/
theorem cell_twice_no_event (half_step : Bool) :
    ∀ s, s < numStates half_step → ∀ p, p < 4 →
      cell half_step (cell half_step s p &&& 0x0F) p &&& 0x30 = ROTARY_DIR_NONE := by
  cases half_step <;> decide

/-- Where a second lookup in the same column stays in the row the first one
reached. -/
theorem cell_twice_same_row (half_step : Bool) :
    ∀ s, s < numStates half_step → ∀ p, p < 4 →
      (cell half_step (cell half_step s p &&& 0x0F) p &&& 0x0F =
          cell half_step s p &&& 0x0F ↔
        (s, p) ∉ [(1, 1), (2, 2), (4, 1), (5, 2)]) := by
  cases half_step <;> decide

/-- A call on a handle whose low state nibble is a valid row succeeds, and
its outcome is given by the table cell. -/
theorem Rotary_Process_of_valid (half_step : Bool) (w : W) (hrotary : Rotary_HandleTypeDef W)
    (hv : hrotary.state &&& 0x0F < numStates half_step) :
    Rotary_Process half_step w hrotary =
      some (cell half_step (hrotary.state &&& 0x0F) (sampled hrotary w) &&& 0x30,
        { hrotary with
          state := cell half_step (hrotary.state &&& 0x0F) (sampled hrotary w) }) := by
  rw [Rotary_Process_eq,
    (cell_facts half_step _ hv _ (sampled_lt_four hrotary w)).1]
  rfl

/-- A return value is one of the three event codes, is not `0x30`, and has a
zero low nibble. -/
theorem event_code_of_cell (half_step : Bool) (s p : Nat)
    (hs : s < numStates half_step) (hp : p < 4) :
    (cell half_step s p &&& 0x30 = ROTARY_DIR_NONE ∨
      cell half_step s p &&& 0x30 = ROTARY_DIR_CW ∨
      cell half_step s p &&& 0x30 = ROTARY_DIR_CCW) ∧
    cell half_step s p &&& 0x30 ≠ 0x30 ∧
    (cell half_step s p &&& 0x30) &&& 0x0F = 0 := by
  have h := (cell_facts half_step s hs p hp).2.2
  rcases h with h | h | h <;> rw [h] <;> decide

/-- Any run of calls from a handle with a valid low state nibble succeeds,
ends in such a handle, and returns event codes only. -/
theorem processCalls_of_valid (half_step : Bool) (ws : List W) :
    ∀ hrotary : Rotary_HandleTypeDef W, hrotary.state &&& 0x0F < numStates half_step →
      ∃ rs hfin, processCalls half_step ws hrotary = some (rs, hfin) ∧
        hfin.state &&& 0x0F < numStates half_step ∧
        ∀ r ∈ rs, (r = ROTARY_DIR_NONE ∨ r = ROTARY_DIR_CW ∨ r = ROTARY_DIR_CCW) ∧
          r ≠ 0x30 ∧ r &&& 0x0F = 0 := by
  induction ws with
  | nil =>
    intro hrotary hv
    exact ⟨[], hrotary, rfl, hv, by simp⟩
  | cons w ws ih =>
    intro hrotary hv
    have hp := sampled_lt_four hrotary w
    have hc := cell_facts half_step _ hv _ hp
    obtain ⟨rs, hfin, hrun, hvfin, hall⟩ :=
      ih { hrotary with
        state := cell half_step (hrotary.state &&& 0x0F) (sampled hrotary w) } hc.2.1
    refine ⟨(cell half_step (hrotary.state &&& 0x0F) (sampled hrotary w) &&& 0x30) :: rs,
      hfin, ?_, hvfin, ?_⟩
    · simp only [processCalls, Rotary_Process_of_valid half_step w hrotary hv, hrun]
    · intro r hr
      rcases List.mem_cons.mp hr with h | h
      · rw [h]; exact event_code_of_cell half_step _ _ hv hp
      · exact hall r h

/-- The handle left by `Rotary_Init` has a valid low state nibble. -/
theorem Rotary_Init_valid (half_step : Bool) (hprior : Rotary_HandleTypeDef W)
    (read_pin_a : Rotary_ReadPinFunc W) (user_data_a : VoidPtr)
    (read_pin_b : Rotary_ReadPinFunc W) (user_data_b : VoidPtr) :
    (Rotary_Init hprior read_pin_a user_data_a read_pin_b user_data_b).state &&& 0x0F <
      numStates half_step := by
  show R_START &&& 0x0F < numStates half_step
  cases half_step <;> decide

/-! ## Test sequences -/

/-- C1 (the code's behaviour at the claim's input). With the full-step table,
from sub-state Start, five calls sampling 00, 10, 11, 01, 00 (values 0, 2, 3,
1, 0) all return `ROTARY_DIR_NONE`, and the stored state afterwards is
`R_CW_NEXT` (3): there is no clockwise event on the fifth call and the handle
is not back in Start. -/
theorem full_step_cw_cycle_from_00 (hrotary : Rotary_HandleTypeDef W) (ws : List W)
    (hs : hrotary.state &&& 0x0F = R_START)
    (hp : ws.map (sampled hrotary) = [0, 2, 3, 1, 0]) :
    (processCalls false ws hrotary).map (fun r => (r.1, r.2.state)) =
      some ([ROTARY_DIR_NONE, ROTARY_DIR_NONE, ROTARY_DIR_NONE, ROTARY_DIR_NONE,
        ROTARY_DIR_NONE], FullStep.R_CW_NEXT) := by
  rw [processCalls_of_start false ws hrotary 0 [2, 3, 1, 0] hs hp]
  decide

theorem full_step_cw_cycle_from_00_witness :
    benchInit.state &&& 0x0F = R_START ∧
    ([0, 2, 3, 1, 0].map wiresOf).map (sampled benchInit) = [0, 2, 3, 1, 0] ∧
    (processCalls false ([0, 2, 3, 1, 0].map wiresOf) benchInit).map
        (fun r => (r.1, r.2.state)) =
      some ([ROTARY_DIR_NONE, ROTARY_DIR_NONE, ROTARY_DIR_NONE, ROTARY_DIR_NONE,
        ROTARY_DIR_NONE], FullStep.R_CW_NEXT) :=
  ⟨by decide, by decide,
    full_step_cw_cycle_from_00 benchInit ([0, 2, 3, 1, 0].map wiresOf) (by decide) (by decide)⟩

/-- C2 (the code's behaviour at the claim's input). With the full-step table,
from sub-state Start, five calls sampling 00, 01, 11, 10, 00 (values 0, 1, 3,
2, 0) all return `ROTARY_DIR_NONE`, and the stored state afterwards is
`R_CCW_NEXT` (6): there is no counter-clockwise event on the fifth call. -/
theorem full_step_ccw_cycle_from_00 (hrotary : Rotary_HandleTypeDef W) (ws : List W)
    (hs : hrotary.state &&& 0x0F = R_START)
    (hp : ws.map (sampled hrotary) = [0, 1, 3, 2, 0]) :
    (processCalls false ws hrotary).map (fun r => (r.1, r.2.state)) =
      some ([ROTARY_DIR_NONE, ROTARY_DIR_NONE, ROTARY_DIR_NONE, ROTARY_DIR_NONE,
        ROTARY_DIR_NONE], FullStep.R_CCW_NEXT) := by
  rw [processCalls_of_start false ws hrotary 0 [1, 3, 2, 0] hs hp]
  decide

theorem full_step_ccw_cycle_from_00_witness :
    benchInit.state &&& 0x0F = R_START ∧
    ([0, 1, 3, 2, 0].map wiresOf).map (sampled benchInit) = [0, 1, 3, 2, 0] ∧
    (processCalls false ([0, 1, 3, 2, 0].map wiresOf) benchInit).map
        (fun r => (r.1, r.2.state)) =
      some ([ROTARY_DIR_NONE, ROTARY_DIR_NONE, ROTARY_DIR_NONE, ROTARY_DIR_NONE,
        ROTARY_DIR_NONE], FullStep.R_CCW_NEXT) :=
  ⟨by decide, by decide,
    full_step_ccw_cycle_from_00 benchInit ([0, 1, 3, 2, 0].map wiresOf) (by decide) (by decide)⟩

/-- C3 (the code's behaviour at the claim's input). With the full-step table,
from sub-state Start, seven calls sampling 00, 10, 00, 10, 11, 01, 00 (values
0, 2, 0, 2, 3, 1, 0) all return `ROTARY_DIR_NONE`, the seventh included, and
the stored state afterwards is `R_CW_NEXT` (3). -/
theorem full_step_bounce_cycle_from_00 (hrotary : Rotary_HandleTypeDef W) (ws : List W)
    (hs : hrotary.state &&& 0x0F = R_START)
    (hp : ws.map (sampled hrotary) = [0, 2, 0, 2, 3, 1, 0]) :
    (processCalls false ws hrotary).map (fun r => (r.1, r.2.state)) =
      some ([ROTARY_DIR_NONE, ROTARY_DIR_NONE, ROTARY_DIR_NONE, ROTARY_DIR_NONE,
        ROTARY_DIR_NONE, ROTARY_DIR_NONE, ROTARY_DIR_NONE], FullStep.R_CW_NEXT) := by
  rw [processCalls_of_start false ws hrotary 0 [2, 0, 2, 3, 1, 0] hs hp]
  decide

theorem full_step_bounce_cycle_from_00_witness :
    benchInit.state &&& 0x0F = R_START ∧
    ([0, 2, 0, 2, 3, 1, 0].map wiresOf).map (sampled benchInit) = [0, 2, 0, 2, 3, 1, 0] ∧
    (processCalls false ([0, 2, 0, 2, 3, 1, 0].map wiresOf) benchInit).map
        (fun r => (r.1, r.2.state)) =
      some ([ROTARY_DIR_NONE, ROTARY_DIR_NONE, ROTARY_DIR_NONE, ROTARY_DIR_NONE,
        ROTARY_DIR_NONE, ROTARY_DIR_NONE, ROTARY_DIR_NONE], FullStep.R_CW_NEXT) :=
  ⟨by decide, by decide,
    full_step_bounce_cycle_from_00 benchInit ([0, 2, 0, 2, 3, 1, 0].map wiresOf)
      (by decide) (by decide)⟩

/-- C4. With the half-step table, from sub-state Start, five calls sampling
00, 10, 11, 01, 00 (values 0, 2, 3, 1, 0) return exactly two direction events:
`ROTARY_DIR_CW` on the third call (the 11 sample) and `ROTARY_DIR_CW` on the
fifth call (the final 00 sample), and `ROTARY_DIR_NONE` on the other three. -/
theorem half_step_two_events_per_cycle (hrotary : Rotary_HandleTypeDef W) (ws : List W)
    (hs : hrotary.state &&& 0x0F = R_START)
    (hp : ws.map (sampled hrotary) = [0, 2, 3, 1, 0]) :
    (processCalls true ws hrotary).map (fun r => r.1) =
      some [ROTARY_DIR_NONE, ROTARY_DIR_NONE, ROTARY_DIR_CW, ROTARY_DIR_NONE,
        ROTARY_DIR_CW] := by
  have h := processCalls_of_start true ws hrotary 0 [2, 3, 1, 0] hs hp
  have ht : tableRun true [0, 2, 3, 1, 0] R_START =
      some ([ROTARY_DIR_NONE, ROTARY_DIR_NONE, ROTARY_DIR_CW, ROTARY_DIR_NONE,
        ROTARY_DIR_CW], HalfStep.R_START_M ||| ROTARY_DIR_CW) := by decide
  rw [ht] at h
  cases hr : processCalls true ws hrotary with
  | none => rw [hr] at h; cases h
  | some r =>
    rw [hr] at h
    simp only [Option.map_some', Option.some.injEq, Prod.mk.injEq] at h
    simp only [Option.map_some', h.1]

theorem half_step_two_events_per_cycle_witness :
    benchInit.state &&& 0x0F = R_START ∧
    ([0, 2, 3, 1, 0].map wiresOf).map (sampled benchInit) = [0, 2, 3, 1, 0] ∧
    (processCalls true ([0, 2, 3, 1, 0].map wiresOf) benchInit).map (fun r => r.1) =
      some [ROTARY_DIR_NONE, ROTARY_DIR_NONE, ROTARY_DIR_CW, ROTARY_DIR_NONE,
        ROTARY_DIR_CW] :=
  ⟨by decide, by decide,
    half_step_two_events_per_cycle benchInit ([0, 2, 3, 1, 0].map wiresOf)
      (by decide) (by decide)⟩

/-! ## One call -/

/-- C5. For either table, a call on a handle whose low state nibble is a
valid row returns one of `0x00`, `0x10`, `0x20`, never `0x30`, with a zero low
nibble; and every run of calls from a handle left by `Rotary_Init` succeeds,
stays on handles with a valid low state nibble, and returns such values only. -/
theorem Rotary_Process_return_closed (half_step : Bool) (hrotary : Rotary_HandleTypeDef W)
    (w : W) (hprior : Rotary_HandleTypeDef W) (read_pin_a : Rotary_ReadPinFunc W)
    (user_data_a : VoidPtr) (read_pin_b : Rotary_ReadPinFunc W) (user_data_b : VoidPtr)
    (ws : List W) (hv : hrotary.state &&& 0x0F < numStates half_step) :
    (∃ r h1, Rotary_Process half_step w hrotary = some (r, h1) ∧
      (r = ROTARY_DIR_NONE ∨ r = ROTARY_DIR_CW ∨ r = ROTARY_DIR_CCW) ∧
      r ≠ 0x30 ∧ r &&& 0x0F = 0) ∧
    (∃ rs hfin,
      processCalls half_step ws
        (Rotary_Init hprior read_pin_a user_data_a read_pin_b user_data_b) =
          some (rs, hfin) ∧
      hfin.state &&& 0x0F < numStates half_step ∧
      ∀ r ∈ rs, (r = ROTARY_DIR_NONE ∨ r = ROTARY_DIR_CW ∨ r = ROTARY_DIR_CCW) ∧
        r ≠ 0x30 ∧ r &&& 0x0F = 0) := by
  constructor
  · exact ⟨_, _, Rotary_Process_of_valid half_step w hrotary hv,
      event_code_of_cell half_step _ _ hv (sampled_lt_four hrotary w)⟩
  · exact processCalls_of_valid half_step ws _
      (Rotary_Init_valid half_step hprior read_pin_a user_data_a read_pin_b user_data_b)

theorem Rotary_Process_return_closed_witness :
    (benchHandle 0x25).state &&& 0x0F < numStates true ∧
    (∃ r h1, Rotary_Process true (wiresOf 3) (benchHandle 0x25) = some (r, h1) ∧
      (r = ROTARY_DIR_NONE ∨ r = ROTARY_DIR_CW ∨ r = ROTARY_DIR_CCW) ∧
      r ≠ 0x30 ∧ r &&& 0x0F = 0) ∧
    (∃ rs hfin,
      processCalls true ([0, 2, 3].map wiresOf)
        (Rotary_Init (benchHandle 0xFF) read_rotary_a 0 read_rotary_b 0) =
          some (rs, hfin) ∧
      hfin.state &&& 0x0F < numStates true ∧
      ∀ r ∈ rs, (r = ROTARY_DIR_NONE ∨ r = ROTARY_DIR_CW ∨ r = ROTARY_DIR_CCW) ∧
        r ≠ 0x30 ∧ r &&& 0x0F = 0) :=
  ⟨by decide,
    Rotary_Process_return_closed true (benchHandle 0x25) (wiresOf 3) (benchHandle 0xFF)
      read_rotary_a 0 read_rotary_b 0 ([0, 2, 3].map wiresOf) (by decide)⟩

/-- C6. For either table, every handle whose low state nibble is a valid row
and every pattern: when two successive calls sample the same pattern (the
call does not change the readers, so the second call samples
`sampled hrotary w2`), both calls succeed and the second returns
`ROTARY_DIR_NONE`. -/
theorem repeated_sample_returns_none (half_step : Bool) (hrotary : Rotary_HandleTypeDef W)
    (w1 w2 : W) (hv : hrotary.state &&& 0x0F < numStates half_step)
    (hp : sampled hrotary w1 = sampled hrotary w2) :
    ∃ r1 h1 r2 h2, Rotary_Process half_step w1 hrotary = some (r1, h1) ∧
      sampled h1 w2 = sampled hrotary w1 ∧
      Rotary_Process half_step w2 h1 = some (r2, h2) ∧ r2 = ROTARY_DIR_NONE := by
  have hp1 := sampled_lt_four hrotary w1
  have hv1 := (cell_facts half_step _ hv _ hp1).2.1
  refine ⟨_, _, _, _, Rotary_Process_of_valid half_step w1 hrotary hv, hp.symm,
    Rotary_Process_of_valid half_step w2 _ hv1, ?_⟩
  show cell half_step (cell half_step (hrotary.state &&& 0x0F) (sampled hrotary w1) &&& 0x0F)
    (sampled hrotary w2) &&& 0x30 = ROTARY_DIR_NONE
  rw [← hp]
  exact cell_twice_no_event half_step _ hv _ hp1

theorem repeated_sample_returns_none_witness :
    (benchHandle 1).state &&& 0x0F < numStates true ∧
    sampled (benchHandle 1) (wiresOf 0) = sampled (benchHandle 1) (wiresOf 0) ∧
    ∃ r1 h1 r2 h2, Rotary_Process true (wiresOf 0) (benchHandle 1) = some (r1, h1) ∧
      sampled h1 (wiresOf 0) = sampled (benchHandle 1) (wiresOf 0) ∧
      Rotary_Process true (wiresOf 0) h1 = some (r2, h2) ∧ r2 = ROTARY_DIR_NONE :=
  ⟨by decide, rfl,
    repeated_sample_returns_none true (benchHandle 1) (wiresOf 0) (wiresOf 0) (by decide) rfl⟩

/-- C7 (as stated, refuted). In either table, a handle in sub-state 2 (reached
from a fresh handle by one call sampling 01) on which two successive calls
both sample 10: the sub-state is `R_START` after the first call and
`R_CCW_BEGIN` after the second (4 in the full-step table, 1 in the half-step
table), so the second call is not a self-loop. -/
theorem repeated_sample_moves_substate :
    (processCalls false [wiresOf 1] benchInit).map (fun r => r.2.state) = some 2 ∧
    (processCalls false [wiresOf 2] (benchHandle 2)).map (fun r => r.2.state &&& 0x0F) =
      some R_START ∧
    (processCalls false [wiresOf 2, wiresOf 2] (benchHandle 2)).map
      (fun r => r.2.state &&& 0x0F) = some FullStep.R_CCW_BEGIN ∧
    (processCalls true [wiresOf 1] benchInit).map (fun r => r.2.state) = some 2 ∧
    (processCalls true [wiresOf 2] (benchHandle 2)).map (fun r => r.2.state &&& 0x0F) =
      some R_START ∧
    (processCalls true [wiresOf 2, wiresOf 2] (benchHandle 2)).map
      (fun r => r.2.state &&& 0x0F) = some HalfStep.R_CCW_BEGIN ∧
    R_START ≠ FullStep.R_CCW_BEGIN ∧ R_START ≠ HalfStep.R_CCW_BEGIN := by
  decide

/-- C7 (amended). For either table, every handle whose low state nibble `s`
is a valid row and every pattern `p`: when two successive calls both sample
`p`, both succeed, and the sub-state after the second call equals the
sub-state after the first exactly when `(s, p)` is none of `(1, 01)`,
`(2, 10)`, `(4, 01)`, `(5, 10)`. -/
theorem repeated_sample_self_loop_iff (half_step : Bool) (hrotary : Rotary_HandleTypeDef W)
    (w1 w2 : W) (hv : hrotary.state &&& 0x0F < numStates half_step)
    (hp : sampled hrotary w1 = sampled hrotary w2) :
    ∃ r1 h1 r2 h2, Rotary_Process half_step w1 hrotary = some (r1, h1) ∧
      sampled h1 w2 = sampled hrotary w1 ∧
      Rotary_Process half_step w2 h1 = some (r2, h2) ∧
      (h2.state &&& 0x0F = h1.state &&& 0x0F ↔
        (hrotary.state &&& 0x0F, sampled hrotary w1) ∉
          [(1, 1), (2, 2), (4, 1), (5, 2)]) := by
  have hp1 := sampled_lt_four hrotary w1
  have hv1 := (cell_facts half_step _ hv _ hp1).2.1
  refine ⟨_, _, _, _, Rotary_Process_of_valid half_step w1 hrotary hv, hp.symm,
    Rotary_Process_of_valid half_step w2 _ hv1, ?_⟩
  show cell half_step (cell half_step (hrotary.state &&& 0x0F) (sampled hrotary w1) &&& 0x0F)
      (sampled hrotary w2) &&& 0x0F =
    cell half_step (hrotary.state &&& 0x0F) (sampled hrotary w1) &&& 0x0F ↔ _
  rw [← hp]
  exact cell_twice_same_row half_step _ hv _ hp1

theorem repeated_sample_self_loop_iff_witness :
    (benchHandle 3).state &&& 0x0F < numStates false ∧
    sampled (benchHandle 3) (wiresOf 2) = sampled (benchHandle 3) (wiresOf 2) ∧
    ∃ r1 h1 r2 h2, Rotary_Process false (wiresOf 2) (benchHandle 3) = some (r1, h1) ∧
      sampled h1 (wiresOf 2) = sampled (benchHandle 3) (wiresOf 2) ∧
      Rotary_Process false (wiresOf 2) h1 = some (r2, h2) ∧
      (h2.state &&& 0x0F = h1.state &&& 0x0F ↔
        ((benchHandle 3).state &&& 0x0F, sampled (benchHandle 3) (wiresOf 2)) ∉
          [(1, 1), (2, 2), (4, 1), (5, 2)]) :=
  ⟨by decide, rfl,
    repeated_sample_self_loop_iff false (benchHandle 3) (wiresOf 2) (wiresOf 2)
      (by decide) rfl⟩

/-- C8. For either table, a call made in sub-state Start while both readers
return high (pattern 11, value 3) returns `ROTARY_DIR_NONE` and stores
`R_START`. -/
theorem illegal_jump_from_start (half_step : Bool) (hrotary : Rotary_HandleTypeDef W) (w : W)
    (hs : hrotary.state &&& 0x0F = R_START)
    (ha : hrotary.read_pin_a w hrotary.user_data_a = true)
    (hb : hrotary.read_pin_b w hrotary.user_data_b = true) :
    sampled hrotary w = 3 ∧
    Rotary_Process half_step w hrotary =
      some (ROTARY_DIR_NONE, { hrotary with state := R_START }) := by
  have hp : sampled hrotary w = 3 := by
    simp only [sampled, Rotary_ReadPins, ha, hb]
    decide
  refine ⟨hp, ?_⟩
  rw [Rotary_Process_eq, hs, hp]
  cases half_step <;> rfl

theorem illegal_jump_from_start_witness :
    benchInit.state &&& 0x0F = R_START ∧
    benchInit.read_pin_a (wiresOf 3) benchInit.user_data_a = true ∧
    benchInit.read_pin_b (wiresOf 3) benchInit.user_data_b = true ∧
    sampled benchInit (wiresOf 3) = 3 ∧
    Rotary_Process false (wiresOf 3) benchInit =
      some (ROTARY_DIR_NONE, { benchInit with state := R_START }) :=
  ⟨by decide, by decide, by decide,
    illegal_jump_from_start false benchInit (wiresOf 3) (by decide) (by decide) (by decide)⟩

/-- C9. `Rotary_ReadPins` hands back the handle it was given, with every
field unchanged; so after any number of `Rotary_ReadPins` calls (one per
element of `ws`, in whatever situations) the handle is the same, and a
following `Rotary_Process` has the same outcome, return value and resulting
handle, as `Rotary_Process` called directly. -/
theorem Rotary_ReadPins_pure (half_step : Bool) (hrotary : Rotary_HandleTypeDef W)
    (w0 w : W) (ws : List W) :
    (Rotary_ReadPins w0 hrotary).2 = hrotary ∧
    readPinsCalls ws hrotary = hrotary ∧
    Rotary_Process half_step w (readPinsCalls ws hrotary) =
      Rotary_Process half_step w hrotary := by
  have hcalls : readPinsCalls ws hrotary = hrotary := by
    induction ws with
    | nil => rfl
    | cons w1 ws ih => exact ih
  exact ⟨rfl, hcalls, by rw [hcalls]⟩

/-- C10. Whatever the handle held before and whatever the arguments,
`Rotary_Init` leaves state `R_START` and exactly the given readers and
contexts (A in `read_pin_a`/`user_data_a`, B in `read_pin_b`/`user_data_b`);
the first `Rotary_Process` after it reads row `R_START` (0) of the active
table, in the column `(B << 1) | A` of the levels the given readers return. -/
theorem Rotary_Init_binds_and_starts (half_step : Bool) (hprior : Rotary_HandleTypeDef W)
    (read_pin_a : Rotary_ReadPinFunc W) (user_data_a : VoidPtr)
    (read_pin_b : Rotary_ReadPinFunc W) (user_data_b : VoidPtr) (w : W) :
    Rotary_Init hprior read_pin_a user_data_a read_pin_b user_data_b =
      { read_pin_a := read_pin_a, user_data_a := user_data_a,
        read_pin_b := read_pin_b, user_data_b := user_data_b, state := R_START } ∧
    ∃ entry,
      tableAt half_step 0
        (((if read_pin_b w user_data_b then 1 else 0) <<< 1) |||
          (if read_pin_a w user_data_a then 1 else 0)) = some entry ∧
      Rotary_Process half_step w
          (Rotary_Init hprior read_pin_a user_data_a read_pin_b user_data_b) =
        some (entry &&& 0x30,
          { read_pin_a := read_pin_a, user_data_a := user_data_a,
            read_pin_b := read_pin_b, user_data_b := user_data_b, state := entry }) := by
  refine ⟨rfl, ?_⟩
  have hv := Rotary_Init_valid half_step hprior read_pin_a user_data_a read_pin_b user_data_b
  have hrow : (Rotary_Init hprior read_pin_a user_data_a read_pin_b user_data_b).state
      &&& 0x0F = 0 := by
    show R_START &&& 0x0F = 0
    decide
  have hcol : sampled (Rotary_Init hprior read_pin_a user_data_a read_pin_b user_data_b) w =
      (((if read_pin_b w user_data_b then 1 else 0) <<< 1) |||
        (if read_pin_a w user_data_a then 1 else 0)) := rfl
  have hc := (cell_facts half_step _ hv _
    (sampled_lt_four (Rotary_Init hprior read_pin_a user_data_a read_pin_b user_data_b) w)).1
  have hcall := Rotary_Process_of_valid half_step w _ hv
  rw [hrow, hcol] at hc hcall
  exact ⟨_, hc, hcall⟩

/-! ## Runs as total functions -/

theorem nextState_mask (half_step : Bool) (s p : Nat) :
    nextState half_step (s &&& 0x0F) p = nextState half_step s p := by
  have hm : (s &&& 0x0F) &&& 0x0F = s &&& 0x0F := by
    rw [Nat.land_assoc]; rfl
  simp only [nextState, hm]

theorem nextState_congr (half_step : Bool) (s t p : Nat) (h : s &&& 0x0F = t &&& 0x0F) :
    nextState half_step s p = nextState half_step t p := by
  simp only [nextState, h]

theorem nextState_valid (half_step : Bool) (s p : Nat)
    (hv : s &&& 0x0F < numStates half_step) (hp : p < 4) :
    nextState half_step s p &&& 0x0F < numStates half_step :=
  (cell_facts half_step _ hv _ hp).2.1

theorem finalState_append (half_step : Bool) (ps qs : List Nat) (s : Nat) :
    finalState half_step (ps ++ qs) s =
      finalState half_step qs (finalState half_step ps s) := by
  induction ps generalizing s with
  | nil => rfl
  | cons p ps ih => exact ih _

theorem events_append (half_step : Bool) (ps qs : List Nat) (s : Nat) :
    events half_step (ps ++ qs) s =
      events half_step ps s ++ events half_step qs (finalState half_step ps s) := by
  induction ps generalizing s with
  | nil => rfl
  | cons p ps ih =>
    show _ :: events half_step (ps ++ qs) _ = _ :: _ ++ _
    rw [ih]
    rfl

theorem events_length (half_step : Bool) (ps : List Nat) (s : Nat) :
    (events half_step ps s).length = ps.length := by
  induction ps generalizing s with
  | nil => rfl
  | cons p ps ih => simp only [events, List.length_cons, ih]

theorem finalState_valid (half_step : Bool) (ps : List Nat) (s : Nat)
    (hv : s &&& 0x0F < numStates half_step) (hp : ∀ p ∈ ps, p < 4) :
    finalState half_step ps s &&& 0x0F < numStates half_step := by
  induction ps generalizing s with
  | nil => exact hv
  | cons p ps ih =>
    exact ih _ (nextState_valid half_step s p hv (hp p (List.mem_cons_self p ps)))
      (fun x hx => hp x (List.mem_cons_of_mem p hx))

/-- Runs from stored states with the same low nibble return the same values
and end in the same sub-state. -/
theorem run_congr (half_step : Bool) (ps : List Nat) (s t : Nat)
    (h : s &&& 0x0F = t &&& 0x0F) :
    events half_step ps s = events half_step ps t ∧
      finalState half_step ps s &&& 0x0F = finalState half_step ps t &&& 0x0F := by
  cases ps with
  | nil => exact ⟨rfl, h⟩
  | cons p ps =>
    simp only [events, finalState, nextState_congr half_step s t p h]
    exact ⟨trivial, trivial⟩

theorem tableRun_of_valid (half_step : Bool) (ps : List Nat) (s : Nat)
    (hv : s &&& 0x0F < numStates half_step) (hp : ∀ p ∈ ps, p < 4) :
    tableRun half_step ps s =
      some (events half_step ps s, finalState half_step ps s) := by
  induction ps generalizing s with
  | nil => rfl
  | cons p ps ih =>
    have hp1 := hp p (List.mem_cons_self p ps)
    have hc := cell_facts half_step _ hv _ hp1
    simp only [tableRun, hc.1]
    rw [ih _ hc.2.1 (fun x hx => hp x (List.mem_cons_of_mem p hx))]
    rfl

theorem sampled_all_lt (hrotary : Rotary_HandleTypeDef W) (ws : List W) :
    ∀ p ∈ ws.map (sampled hrotary), p < 4 := by
  intro p hp
  obtain ⟨w, _, hw⟩ := List.mem_map.mp hp
  rw [← hw]
  exact sampled_lt_four hrotary w

/-- A run of calls on a handle with a valid low state nibble, as a function
of the sampled patterns. -/
theorem processCalls_run (half_step : Bool) (ws : List W) (hrotary : Rotary_HandleTypeDef W)
    (hv : hrotary.state &&& 0x0F < numStates half_step) :
    processCalls half_step ws hrotary =
      some (events half_step (ws.map (sampled hrotary)) hrotary.state,
        { hrotary with
          state := finalState half_step (ws.map (sampled hrotary)) hrotary.state }) := by
  rw [processCalls_eq, tableRun_of_valid half_step _ _ hv (sampled_all_lt hrotary ws)]
  rfl

theorem valid_of_start (half_step : Bool) (s : Nat) (hs : s &&& 0x0F = R_START) :
    s &&& 0x0F < numStates half_step := by
  rw [hs]
  cases half_step <;> decide

/-! ## Table shape and stored state -/

/-- Where the stored state carries an event flag. -/
theorem cell_stored_facts (half_step : Bool) :
    ∀ s, s < numStates half_step → ∀ p, p < 4 →
      cell half_step s p = (cell half_step s p &&& 0x0F) ||| (cell half_step s p &&& 0x30) ∧
      (cell half_step s p = cell half_step s p &&& 0x0F ↔
        cell half_step s p &&& 0x30 = ROTARY_DIR_NONE) := by
  cases half_step <;> decide

/-- The half-step cells with an event flag are in columns 0 and 3. -/
theorem half_step_event_columns :
    ∀ s, s < numStates true → ∀ p, p < 4 →
      cell true s p &&& 0x30 ≠ ROTARY_DIR_NONE → p = 0 ∨ p = 3 := by
  decide

/-- C11. Each table has 6 (half-step) or 7 (full-step) rows of 4 cells, and
the low nibble of every cell is a valid row index; after `Rotary_Init` and
any run of `Rotary_Process` calls, the run has succeeded and the next lookup
has its row index `state & 0x0F` below the number of rows and its column index
below 4, so it hits a cell of the table. -/
theorem substate_always_valid (half_step : Bool) (hprior : Rotary_HandleTypeDef W)
    (read_pin_a : Rotary_ReadPinFunc W) (user_data_a : VoidPtr)
    (read_pin_b : Rotary_ReadPinFunc W) (user_data_b : VoidPtr) (ws : List W) (w : W) :
    numStates half_step = (if half_step then 6 else 7) ∧
    (∀ row ∈ state_table half_step,
      row.length = 4 ∧ ∀ entry ∈ row, entry &&& 0x0F < numStates half_step) ∧
    ∃ rs hfin,
      processCalls half_step ws
        (Rotary_Init hprior read_pin_a user_data_a read_pin_b user_data_b) =
          some (rs, hfin) ∧
      hfin.state &&& 0x0F < numStates half_step ∧
      sampled hfin w < 4 ∧
      ∃ entry, tableAt half_step (hfin.state &&& 0x0F) (sampled hfin w) = some entry := by
  refine ⟨by cases half_step <;> rfl, by cases half_step <;> decide, ?_⟩
  obtain ⟨rs, hfin, hrun, hvfin, _⟩ := processCalls_of_valid half_step ws _
    (Rotary_Init_valid half_step hprior read_pin_a user_data_a read_pin_b user_data_b)
  exact ⟨rs, hfin, hrun, hvfin, sampled_lt_four hfin w,
    _, (cell_facts half_step _ hvfin _ (sampled_lt_four hfin w)).1⟩

/-- C12 (the code's behaviour). In the full-step table no cell of column 00
carries an event flag; the two cells that do are in column 11, rows
`R_CW_FINAL` and `R_CCW_FINAL`. On a fresh handle, four calls sampling 01, 00,
10, 11 return `ROTARY_DIR_CW` on the fourth call, whose sample is 11. -/
theorem full_step_events_in_column_11 :
    (List.range 7).map (fun s => cell false s 0 &&& 0x30) =
      List.replicate 7 ROTARY_DIR_NONE ∧
    (List.range 7).map (fun s => cell false s 3 &&& 0x30) =
      [ROTARY_DIR_NONE, ROTARY_DIR_CW, ROTARY_DIR_NONE, ROTARY_DIR_NONE, ROTARY_DIR_NONE,
        ROTARY_DIR_CCW, ROTARY_DIR_NONE] ∧
    tableAt false FullStep.R_CW_FINAL 3 = some (R_START ||| ROTARY_DIR_CW) ∧
    tableAt false FullStep.R_CCW_FINAL 3 = some (R_START ||| ROTARY_DIR_CCW) ∧
    ([1, 0, 2, 3].map wiresOf).map (sampled benchInit) = [1, 0, 2, 3] ∧
    (processCalls false ([1, 0, 2, 3].map wiresOf) benchInit).map (fun r => r.1) =
      some [ROTARY_DIR_NONE, ROTARY_DIR_NONE, ROTARY_DIR_NONE, ROTARY_DIR_CW] := by
  decide

/-- C13. In the half-step table a call on a handle with a valid low state
nibble returns a direction event only on a sample of 00 or 11, never on 01 or
10; column 00 has a clockwise cell (row `R_CW_BEGIN`) and a counter-clockwise
cell (row `R_CCW_BEGIN`), and column 11 has a clockwise cell (row
`R_CW_BEGIN_M`) and a counter-clockwise cell (row `R_CCW_BEGIN_M`). -/
theorem half_step_events_at_00_and_11 (hrotary : Rotary_HandleTypeDef W) (w : W)
    (hv : hrotary.state &&& 0x0F < numStates true) :
    (∃ r h1, Rotary_Process true w hrotary = some (r, h1) ∧
      (r ≠ ROTARY_DIR_NONE → sampled hrotary w = 0 ∨ sampled hrotary w = 3)) ∧
    (tableAt true HalfStep.R_CW_BEGIN 0).map (fun e => e &&& 0x30) = some ROTARY_DIR_CW ∧
    (tableAt true HalfStep.R_CCW_BEGIN 0).map (fun e => e &&& 0x30) = some ROTARY_DIR_CCW ∧
    (tableAt true HalfStep.R_CW_BEGIN_M 3).map (fun e => e &&& 0x30) = some ROTARY_DIR_CW ∧
    (tableAt true HalfStep.R_CCW_BEGIN_M 3).map (fun e => e &&& 0x30) =
      some ROTARY_DIR_CCW := by
  refine ⟨⟨_, _, Rotary_Process_of_valid true w hrotary hv, ?_⟩, by decide, by decide,
    by decide, by decide⟩
  exact half_step_event_columns _ hv _ (sampled_lt_four hrotary w)

theorem half_step_events_at_00_and_11_witness :
    (benchHandle 4).state &&& 0x0F < numStates true ∧
    ((∃ r h1, Rotary_Process true (wiresOf 3) (benchHandle 4) = some (r, h1) ∧
      (r ≠ ROTARY_DIR_NONE →
        sampled (benchHandle 4) (wiresOf 3) = 0 ∨ sampled (benchHandle 4) (wiresOf 3) = 3)) ∧
    (tableAt true HalfStep.R_CW_BEGIN 0).map (fun e => e &&& 0x30) = some ROTARY_DIR_CW ∧
    (tableAt true HalfStep.R_CCW_BEGIN 0).map (fun e => e &&& 0x30) = some ROTARY_DIR_CCW ∧
    (tableAt true HalfStep.R_CW_BEGIN_M 3).map (fun e => e &&& 0x30) = some ROTARY_DIR_CW ∧
    (tableAt true HalfStep.R_CCW_BEGIN_M 3).map (fun e => e &&& 0x30) =
      some ROTARY_DIR_CCW) :=
  ⟨by decide, half_step_events_at_00_and_11 (benchHandle 4) (wiresOf 3) (by decide)⟩

/-- C15 (as stated, refuted). With the half-step table, on a fresh handle,
three calls sampling 00, 10, 11: the third call returns `ROTARY_DIR_CW` and
the state field then holds `0x10`, which is not its own low nibble (0) and is
not below the number of rows (6). -/
theorem stored_state_keeps_event_flag :
    (processCalls true ([0, 2, 3].map wiresOf) benchInit).map (fun r => (r.1, r.2.state)) =
      some ([ROTARY_DIR_NONE, ROTARY_DIR_NONE, ROTARY_DIR_CW], 0x10) ∧
    (0x10 : Nat) ≠ 0x10 &&& 0x0F ∧ ¬ (0x10 < numStates true) := by
  decide

/-- C15 (amended). After a `Rotary_Process` call on a handle with a valid low
state nibble, the state field holds the whole looked-up table entry: its low
nibble is a valid row index, its bits 4-5 are the value the call returned, and
it is the bitwise or of the two; so it equals its sub-state portion exactly
when the call returned `ROTARY_DIR_NONE`. -/
theorem stored_state_is_entry (half_step : Bool) (hrotary : Rotary_HandleTypeDef W) (w : W)
    (hv : hrotary.state &&& 0x0F < numStates half_step) :
    ∃ entry r h1,
      tableAt half_step (hrotary.state &&& 0x0F) (sampled hrotary w) = some entry ∧
      Rotary_Process half_step w hrotary = some (r, h1) ∧
      h1.state = entry ∧
      r = h1.state &&& 0x30 ∧
      h1.state &&& 0x0F < numStates half_step ∧
      h1.state = (h1.state &&& 0x0F) ||| r ∧
      (h1.state = h1.state &&& 0x0F ↔ r = ROTARY_DIR_NONE) := by
  have hp := sampled_lt_four hrotary w
  have hc := cell_facts half_step _ hv _ hp
  have hst := cell_stored_facts half_step _ hv _ hp
  exact ⟨_, _, _, hc.1, Rotary_Process_of_valid half_step w hrotary hv, rfl, rfl, hc.2.1,
    hst.1, hst.2⟩

theorem stored_state_is_entry_witness :
    (benchHandle 4).state &&& 0x0F < numStates true ∧
    ∃ entry r h1,
      tableAt true ((benchHandle 4).state &&& 0x0F) (sampled (benchHandle 4) (wiresOf 3)) =
        some entry ∧
      Rotary_Process true (wiresOf 3) (benchHandle 4) = some (r, h1) ∧
      h1.state = entry ∧
      r = h1.state &&& 0x30 ∧
      h1.state &&& 0x0F < numStates true ∧
      h1.state = (h1.state &&& 0x0F) ||| r ∧
      (h1.state = h1.state &&& 0x0F ↔ r = ROTARY_DIR_NONE) :=
  ⟨by decide, stored_state_is_entry true (benchHandle 4) (wiresOf 3) (by decide)⟩

/-- C16. `Rotary_ReadPins` returns `(b << 1) | a` for the levels `a`, `b` the
bound readers return: 0 for A=0,B=0; 1 for A=1,B=0; 2 for A=0,B=1; 3 for
A=1,B=1. The value is below 4 and is the column index `Rotary_Process` uses in
the same situation. -/
theorem Rotary_ReadPins_value (half_step : Bool) (hrotary : Rotary_HandleTypeDef W) (w : W) :
    (Rotary_ReadPins w hrotary).1 =
      (((if hrotary.read_pin_b w hrotary.user_data_b then 1 else 0) <<< 1) |||
        (if hrotary.read_pin_a w hrotary.user_data_a then 1 else 0)) ∧
    (Rotary_ReadPins w hrotary).1 =
      (match hrotary.read_pin_a w hrotary.user_data_a,
          hrotary.read_pin_b w hrotary.user_data_b with
        | false, false => 0
        | true, false => 1
        | false, true => 2
        | true, true => 3) ∧
    (Rotary_ReadPins w hrotary).1 < 4 ∧
    Rotary_Process half_step w hrotary =
      (tableAt half_step (hrotary.state &&& 0x0F) (Rotary_ReadPins w hrotary).1).map
        (fun entry => (entry &&& 0x30, { hrotary with state := entry })) := by
  refine ⟨rfl, ?_, sampled_lt_four hrotary w, Rotary_Process_eq half_step w hrotary⟩
  simp only [Rotary_ReadPins]
  cases hrotary.read_pin_a w hrotary.user_data_a <;>
    cases hrotary.read_pin_b w hrotary.user_data_b <;> decide

/-! ## Legal gray-code histories -/

/-- A call on a handle with a valid low state nibble, through `nextState`. -/
theorem Rotary_Process_step (half_step : Bool) (w : W) (hrotary : Rotary_HandleTypeDef W)
    (hv : hrotary.state &&& 0x0F < numStates half_step) :
    Rotary_Process half_step w hrotary =
      some (nextState half_step hrotary.state (sampled hrotary w) &&& 0x30,
        { hrotary with state := nextState half_step hrotary.state (sampled hrotary w) }) :=
  Rotary_Process_of_valid half_step w hrotary hv

theorem grayStates_first (half_step : Bool) :
    ∀ p, p < 4 → (cell half_step 0 p &&& 0x0F, p) ∈ grayStates half_step := by
  cases half_step <;> decide

theorem grayStates_step (half_step : Bool) :
    ∀ sq ∈ grayStates half_step, ∀ p, p < 4 → atMostOneBit sq.2 p = true →
      (cell half_step sq.1 p &&& 0x0F, p) ∈ grayStates half_step := by
  cases half_step <;> decide

/-- After a both-bits jump out of a legal history: no event, back to Start
(or to Start-Mid in the half-step table). -/
theorem grayStates_jump (half_step : Bool) :
    ∀ sq ∈ grayStates half_step, ∀ p, p < 4 → bothBits sq.2 p = true →
      cell half_step sq.1 p &&& 0x30 = ROTARY_DIR_NONE ∧
      (cell half_step sq.1 p &&& 0x0F = R_START ∨
        (half_step = true ∧ cell half_step sq.1 p &&& 0x0F = HalfStep.R_START_M)) := by
  cases half_step <;> decide

/-- After a legal history, sampling the last pattern again: no event, same row. -/
theorem grayStates_repeat (half_step : Bool) :
    ∀ sq ∈ grayStates half_step,
      cell half_step sq.1 sq.2 &&& 0x30 = ROTARY_DIR_NONE ∧
      cell half_step sq.1 sq.2 &&& 0x0F = sq.1 := by
  cases half_step <;> decide

/-- After a legal history ending in `p`, a one-bit edge to `q`, back to `p`
and again to `q`: the two later calls have no event and end in the row the
first edge reached. -/
theorem grayStates_bounce (half_step : Bool) :
    ∀ sq ∈ grayStates half_step, ∀ q, q < 4 → exactlyOneBit sq.2 q = true →
      cell half_step (cell half_step sq.1 q &&& 0x0F) sq.2 &&& 0x30 = ROTARY_DIR_NONE ∧
      cell half_step
          (cell half_step (cell half_step sq.1 q &&& 0x0F) sq.2 &&& 0x0F) q &&& 0x30 =
        ROTARY_DIR_NONE ∧
      cell half_step
          (cell half_step (cell half_step sq.1 q &&& 0x0F) sq.2 &&& 0x0F) q &&& 0x0F =
        cell half_step sq.1 q &&& 0x0F := by
  cases half_step <;> decide

theorem chainB_iff (r : Nat → Nat → Bool) (l : List Nat) :
    chainB r l = true ↔ List.Chain' (fun a b => r a b = true) l := by
  induction l with
  | nil => simp [chainB]
  | cons a l ih =>
    cases l with
    | nil => simp [chainB]
    | cons b l =>
      rw [List.chain'_cons, ← ih]
      simp [chainB]

theorem grayLegal_chain (ps : List Nat) (h : grayLegal ps = true) :
    List.Chain' GrayStep ps :=
  (chainB_iff atMostOneBit ps).mp h

theorem gray_run (half_step : Bool) (ps : List Nat) :
    ∀ s q p, (s &&& 0x0F, q) ∈ grayStates half_step →
      List.Chain GrayStep q (ps ++ [p]) → (∀ x ∈ ps ++ [p], x < 4) →
      (finalState half_step (ps ++ [p]) s &&& 0x0F, p) ∈ grayStates half_step := by
  induction ps with
  | nil =>
    intro s q p hG hch hlt
    have hstep : GrayStep q p := (List.chain_cons.mp hch).1
    exact grayStates_step half_step _ hG p (hlt p (by simp)) hstep
  | cons x ps ih =>
    intro s q p hG hch hlt
    have hc := List.chain_cons.mp hch
    have hx : x < 4 := hlt x (by simp)
    have hG1 : (nextState half_step s x &&& 0x0F, x) ∈ grayStates half_step :=
      grayStates_step half_step _ hG x hx hc.1
    exact ih (nextState half_step s x) x p hG1 hc.2
      (fun y hy => hlt y (List.mem_cons_of_mem x hy))

/-- The invariant of legal gray-code histories from Start. -/
theorem gray_from_start (half_step : Bool) (ps : List Nat) (p s : Nat)
    (hs : s &&& 0x0F = R_START) (hch : List.Chain' GrayStep (ps ++ [p]))
    (hlt : ∀ x ∈ ps ++ [p], x < 4) :
    (finalState half_step (ps ++ [p]) s &&& 0x0F, p) ∈ grayStates half_step := by
  cases ps with
  | nil =>
    have h := grayStates_first half_step p (hlt p (by simp))
    show (cell half_step (s &&& 0x0F) p &&& 0x0F, p) ∈ grayStates half_step
    rw [hs]
    exact h
  | cons x ps =>
    have hx : x < 4 := hlt x (by simp)
    have hG1 : (nextState half_step s x &&& 0x0F, x) ∈ grayStates half_step := by
      show (cell half_step (s &&& 0x0F) x &&& 0x0F, x) ∈ grayStates half_step
      rw [hs]
      exact grayStates_first half_step x hx
    exact gray_run half_step ps (nextState half_step s x) x p hG1 hch
      (fun y hy => hlt y (List.mem_cons_of_mem x hy))

/-- The invariant, for the handle and the situations of a run. -/
theorem gray_history (half_step : Bool) (hrotary : Rotary_HandleTypeDef W) (ws : List W)
    (wp : W) (hs : hrotary.state &&& 0x0F = R_START)
    (hlegal : grayLegal ((ws ++ [wp]).map (sampled hrotary)) = true) :
    (finalState half_step ((ws ++ [wp]).map (sampled hrotary)) hrotary.state &&& 0x0F,
      sampled hrotary wp) ∈ grayStates half_step := by
  have hleg := grayLegal_chain _ hlegal
  have hlt := sampled_all_lt hrotary (ws ++ [wp])
  have hmap : (ws ++ [wp]).map (sampled hrotary) =
      ws.map (sampled hrotary) ++ [sampled hrotary wp] := by simp
  rw [hmap] at hleg hlt ⊢
  exact gray_from_start half_step _ _ _ hs hleg hlt

/-- Bounces between `p` and `q` from a row that a one-bit edge `p -> q`
reached: no events, and the same row at the end. -/
theorem bounces_run (half_step : Bool) (p q t : Nat)
    (hpair : ∀ u, u &&& 0x0F = t &&& 0x0F →
      nextState half_step u p &&& 0x30 = ROTARY_DIR_NONE ∧
      nextState half_step (nextState half_step u p) q &&& 0x30 = ROTARY_DIR_NONE ∧
      nextState half_step (nextState half_step u p) q &&& 0x0F = t &&& 0x0F) (k : Nat) :
    ∀ u, u &&& 0x0F = t &&& 0x0F →
      events half_step (bounces p q k) u = List.replicate (2 * k) ROTARY_DIR_NONE ∧
      finalState half_step (bounces p q k) u &&& 0x0F = t &&& 0x0F := by
  induction k with
  | zero =>
    intro u hu
    exact ⟨rfl, hu⟩
  | succ k ih =>
    intro u hu
    obtain ⟨h1, h2, h3⟩ := hpair u hu
    obtain ⟨ie, ifin⟩ := ih _ h3
    constructor
    · show (nextState half_step u p &&& 0x30) ::
          (nextState half_step (nextState half_step u p) q &&& 0x30) ::
            events half_step (bounces p q k) _ = _
      rw [h1, h2, ie, Nat.mul_succ]
      rfl
    · exact ifin

/-- C14. For either table: after a run of calls from sub-state Start whose
samples form a legal gray-code history (each differs from the previous one in
at most one phase bit, the first is arbitrary) ending in the sample of `wp`, a
call whose sample differs from that last one in both phase bits returns
`ROTARY_DIR_NONE` and leaves sub-state Start, or, in the half-step table only,
Start or Start-Mid. -/
theorem illegal_jump_absorbed (half_step : Bool) (hrotary : Rotary_HandleTypeDef W)
    (ws : List W) (wp w : W) (hs : hrotary.state &&& 0x0F = R_START)
    (hleg : grayLegal ((ws ++ [wp]).map (sampled hrotary)) = true)
    (hjump : bothBits (sampled hrotary wp) (sampled hrotary w) = true) :
    ∃ rs h1 h2, processCalls half_step (ws ++ [wp]) hrotary = some (rs, h1) ∧
      Rotary_Process half_step w h1 = some (ROTARY_DIR_NONE, h2) ∧
      (h2.state &&& 0x0F = R_START ∨
        (half_step = true ∧ h2.state &&& 0x0F = HalfStep.R_START_M)) := by
  have hv := valid_of_start half_step _ hs
  have hG := gray_history half_step hrotary ws wp hs hleg
  have hj := grayStates_jump half_step _ hG _ (sampled_lt_four hrotary w) hjump
  have hv1 := finalState_valid half_step _ _ hv (sampled_all_lt hrotary (ws ++ [wp]))
  have hproc := Rotary_Process_step half_step w
    { hrotary with
      state := finalState half_step ((ws ++ [wp]).map (sampled hrotary)) hrotary.state } hv1
  exact ⟨_, _, _, processCalls_run half_step _ hrotary hv,
    hproc.trans (congrArg (fun r => some (r, _)) hj.1), hj.2⟩

theorem illegal_jump_absorbed_witness :
    benchInit.state &&& 0x0F = R_START ∧
    grayLegal (([wiresOf 0, wiresOf 2, wiresOf 3] ++ [wiresOf 1]).map (sampled benchInit)) =
      true ∧
    bothBits (sampled benchInit (wiresOf 1)) (sampled benchInit (wiresOf 2)) = true ∧
    ∃ rs h1 h2,
      processCalls true ([wiresOf 0, wiresOf 2, wiresOf 3] ++ [wiresOf 1]) benchInit =
        some (rs, h1) ∧
      Rotary_Process true (wiresOf 2) h1 = some (ROTARY_DIR_NONE, h2) ∧
      (h2.state &&& 0x0F = R_START ∨
        (true = true ∧ h2.state &&& 0x0F = HalfStep.R_START_M)) :=
  ⟨by decide, by decide, by decide,
    illegal_jump_absorbed true benchInit [wiresOf 0, wiresOf 2, wiresOf 3] (wiresOf 1)
      (wiresOf 2) (by decide) (by decide) (by decide)⟩

/-- C17. For either table: let a run of calls from sub-state Start sample a
legal gray-code history ending in `p` (the sample of `wp`), and let `q` (the
sample of `wq`) differ from `p` in exactly one phase bit. Then the calls that
sample `q` followed by `k` repetitions of `p, q` return what the single call
sampling `q` returns, followed by `ROTARY_DIR_NONE` on every later call, and
end in the sub-state that single call ends in. -/
theorem bounce_absorbed (half_step : Bool) (hrotary : Rotary_HandleTypeDef W)
    (ws : List W) (wp wq : W) (k : Nat) (bs : List W)
    (hs : hrotary.state &&& 0x0F = R_START)
    (hleg : grayLegal ((ws ++ [wp]).map (sampled hrotary)) = true)
    (hq : exactlyOneBit (sampled hrotary wp) (sampled hrotary wq) = true)
    (hb : bs.map (sampled hrotary) = bounces (sampled hrotary wp) (sampled hrotary wq) k) :
    ∃ rs h1 r h2 h3, processCalls half_step (ws ++ [wp]) hrotary = some (rs, h1) ∧
      Rotary_Process half_step wq h1 = some (r, h2) ∧
      processCalls half_step (wq :: bs) h1 =
        some (r :: List.replicate (2 * k) ROTARY_DIR_NONE, h3) ∧
      h3.state &&& 0x0F = h2.state &&& 0x0F := by
  have hv := valid_of_start half_step _ hs
  have hG := gray_history half_step hrotary ws wp hs hleg
  have hbf := grayStates_bounce half_step _ hG _ (sampled_lt_four hrotary wq) hq
  have hv1 := finalState_valid half_step _ _ hv (sampled_all_lt hrotary (ws ++ [wp]))
  have hpair : ∀ u, u &&& 0x0F =
      nextState half_step
        (finalState half_step ((ws ++ [wp]).map (sampled hrotary)) hrotary.state)
        (sampled hrotary wq) &&& 0x0F →
      nextState half_step u (sampled hrotary wp) &&& 0x30 = ROTARY_DIR_NONE ∧
      nextState half_step (nextState half_step u (sampled hrotary wp))
        (sampled hrotary wq) &&& 0x30 = ROTARY_DIR_NONE ∧
      nextState half_step (nextState half_step u (sampled hrotary wp))
        (sampled hrotary wq) &&& 0x0F =
        nextState half_step
          (finalState half_step ((ws ++ [wp]).map (sampled hrotary)) hrotary.state)
          (sampled hrotary wq) &&& 0x0F := by
    intro u hu
    simp only [nextState, hu]
    exact hbf
  have hbr := bounces_run half_step (sampled hrotary wp) (sampled hrotary wq) _ hpair k _ rfl
  have hcalls := processCalls_run half_step (wq :: bs)
    { hrotary with
      state := finalState half_step ((ws ++ [wp]).map (sampled hrotary)) hrotary.state } hv1
  have hsm : sampled
      { hrotary with
        state := finalState half_step ((ws ++ [wp]).map (sampled hrotary)) hrotary.state } =
      sampled hrotary := rfl
  rw [hsm, List.map_cons, hb] at hcalls
  simp only [events, finalState] at hcalls
  rw [hbr.1] at hcalls
  exact ⟨_, _, _, _, _, processCalls_run half_step _ hrotary hv,
    Rotary_Process_step half_step wq _ hv1, hcalls, hbr.2⟩

theorem bounce_absorbed_witness :
    benchInit.state &&& 0x0F = R_START ∧
    grayLegal (([wiresOf 0, wiresOf 2, wiresOf 3] ++ [wiresOf 1]).map (sampled benchInit)) =
      true ∧
    exactlyOneBit (sampled benchInit (wiresOf 1)) (sampled benchInit (wiresOf 0)) = true ∧
    ([1, 0, 1, 0].map wiresOf).map (sampled benchInit) =
      bounces (sampled benchInit (wiresOf 1)) (sampled benchInit (wiresOf 0)) 2 ∧
    ∃ rs h1 r h2 h3,
      processCalls false ([wiresOf 0, wiresOf 2, wiresOf 3] ++ [wiresOf 1]) benchInit =
        some (rs, h1) ∧
      Rotary_Process false (wiresOf 0) h1 = some (r, h2) ∧
      processCalls false (wiresOf 0 :: [1, 0, 1, 0].map wiresOf) h1 =
        some (r :: List.replicate (2 * 2) ROTARY_DIR_NONE, h3) ∧
      h3.state &&& 0x0F = h2.state &&& 0x0F :=
  ⟨by decide, by decide, by decide, by decide,
    bounce_absorbed false benchInit [wiresOf 0, wiresOf 2, wiresOf 3] (wiresOf 1)
      (wiresOf 0) 2 ([1, 0, 1, 0].map wiresOf) (by decide) (by decide) (by decide)
      (by decide)⟩

/-- C18. For either table: in a run of calls from sub-state Start whose
samples form a legal gray-code history, sampling again right after the call
made in situation `w`, while the pins are unchanged, returns
`ROTARY_DIR_NONE` and leaves the sub-state as it was; the run with the extra
call returns the same values as the run without it, with that one
`ROTARY_DIR_NONE` inserted, so the same direction events in the same order,
and ends in the same sub-state. -/
theorem extra_poll_is_noop (half_step : Bool) (hrotary : Rotary_HandleTypeDef W)
    (xs : List W) (w w1 : W) (ys : List W) (hs : hrotary.state &&& 0x0F = R_START)
    (hleg : grayLegal ((xs ++ w :: ys).map (sampled hrotary)) = true)
    (hsame : sampled hrotary w1 = sampled hrotary w) :
    ∃ rs1 rs2 hmid hmid1 hfin hfin1,
      processCalls half_step (xs ++ [w]) hrotary = some (rs1, hmid) ∧
      Rotary_Process half_step w1 hmid = some (ROTARY_DIR_NONE, hmid1) ∧
      hmid1.state &&& 0x0F = hmid.state &&& 0x0F ∧
      processCalls half_step (xs ++ w :: ys) hrotary = some (rs1 ++ rs2, hfin) ∧
      processCalls half_step (xs ++ w :: w1 :: ys) hrotary =
        some (rs1 ++ ROTARY_DIR_NONE :: rs2, hfin1) ∧
      hfin1.state &&& 0x0F = hfin.state &&& 0x0F ∧
      (rs1 ++ ROTARY_DIR_NONE :: rs2).filter (fun r => r != ROTARY_DIR_NONE) =
        (rs1 ++ rs2).filter (fun r => r != ROTARY_DIR_NONE) := by
  have hv := valid_of_start half_step _ hs
  have hm1 : (xs ++ w :: ys).map (sampled hrotary) =
      (xs ++ [w]).map (sampled hrotary) ++ ys.map (sampled hrotary) := by simp
  have hm2 : (xs ++ w :: w1 :: ys).map (sampled hrotary) =
      (xs ++ [w]).map (sampled hrotary) ++
        (sampled hrotary w :: ys.map (sampled hrotary)) := by simp [hsame]
  have hpre : grayLegal ((xs ++ [w]).map (sampled hrotary)) = true := by
    have hc := grayLegal_chain _ hleg
    rw [hm1] at hc
    exact (chainB_iff atMostOneBit _).mpr hc.left_of_append
  have hG := gray_history half_step hrotary xs w hs hpre
  have hrep := grayStates_repeat half_step _ hG
  have hv1 := finalState_valid half_step _ _ hv (sampled_all_lt hrotary (xs ++ [w]))
  have hnone : nextState half_step
      (finalState half_step ((xs ++ [w]).map (sampled hrotary)) hrotary.state)
      (sampled hrotary w) &&& 0x30 = ROTARY_DIR_NONE := hrep.1
  have hsub : nextState half_step
      (finalState half_step ((xs ++ [w]).map (sampled hrotary)) hrotary.state)
      (sampled hrotary w) &&& 0x0F =
      finalState half_step ((xs ++ [w]).map (sampled hrotary)) hrotary.state &&& 0x0F :=
    hrep.2
  have hcong := run_congr half_step (ys.map (sampled hrotary)) _ _ hsub
  have hproc := Rotary_Process_step half_step w1
    { hrotary with
      state := finalState half_step ((xs ++ [w]).map (sampled hrotary)) hrotary.state } hv1
  have hsm : sampled
      { hrotary with
        state := finalState half_step ((xs ++ [w]).map (sampled hrotary)) hrotary.state }
      w1 = sampled hrotary w := hsame
  rw [hsm] at hproc
  have hrunA := processCalls_run half_step (xs ++ w :: ys) hrotary hv
  rw [hm1, events_append, finalState_append] at hrunA
  have hrunB := processCalls_run half_step (xs ++ w :: w1 :: ys) hrotary hv
  rw [hm2, events_append, finalState_append] at hrunB
  simp only [events, finalState] at hrunB
  rw [hnone, hcong.1] at hrunB
  refine ⟨_, _, _, _, _, _, processCalls_run half_step _ hrotary hv,
    hproc.trans (congrArg (fun r => some (r, _)) hnone), hsub, hrunA, hrunB, hcong.2, ?_⟩
  simp [List.filter_append, ROTARY_DIR_NONE]

theorem extra_poll_is_noop_witness :
    benchInit.state &&& 0x0F = R_START ∧
    grayLegal (([wiresOf 0, wiresOf 2] ++ wiresOf 3 :: [wiresOf 1, wiresOf 0]).map
      (sampled benchInit)) = true ∧
    sampled benchInit (wiresOf 3) = sampled benchInit (wiresOf 3) ∧
    ∃ rs1 rs2 hmid hmid1 hfin hfin1,
      processCalls true ([wiresOf 0, wiresOf 2] ++ [wiresOf 3]) benchInit =
        some (rs1, hmid) ∧
      Rotary_Process true (wiresOf 3) hmid = some (ROTARY_DIR_NONE, hmid1) ∧
      hmid1.state &&& 0x0F = hmid.state &&& 0x0F ∧
      processCalls true ([wiresOf 0, wiresOf 2] ++ wiresOf 3 :: [wiresOf 1, wiresOf 0])
        benchInit = some (rs1 ++ rs2, hfin) ∧
      processCalls true
          ([wiresOf 0, wiresOf 2] ++ wiresOf 3 :: wiresOf 3 :: [wiresOf 1, wiresOf 0])
          benchInit =
        some (rs1 ++ ROTARY_DIR_NONE :: rs2, hfin1) ∧
      hfin1.state &&& 0x0F = hfin.state &&& 0x0F ∧
      (rs1 ++ ROTARY_DIR_NONE :: rs2).filter (fun r => r != ROTARY_DIR_NONE) =
        (rs1 ++ rs2).filter (fun r => r != ROTARY_DIR_NONE) :=
  ⟨by decide, by decide, rfl,
    extra_poll_is_noop true benchInit [wiresOf 0, wiresOf 2] (wiresOf 3) (wiresOf 3)
      [wiresOf 1, wiresOf 0] (by decide) (by decide) rfl⟩

/-! ## Events and edges -/

theorem start_row_no_event (half_step : Bool) :
    ∀ p, p < 4 → cell half_step 0 p &&& 0x30 = ROTARY_DIR_NONE := by
  cases half_step <;> decide

/-- An event on the second of two successive calls needs a one-bit edge
between their samples. -/
theorem event_needs_edge (half_step : Bool) :
    ∀ s, s < numStates half_step → ∀ p1, p1 < 4 → ∀ p2, p2 < 4 →
      (cell half_step (cell half_step s p1 &&& 0x0F) p2 &&& 0x30 ≠ ROTARY_DIR_NONE →
        exactlyOneBit p1 p2 = true) ∧
      (p2 = p1 ∨ bothBits p1 p2 = true →
        cell half_step (cell half_step s p1 &&& 0x0F) p2 &&& 0x30 = ROTARY_DIR_NONE) := by
  cases half_step <;> decide

/-- C20. For either table and every run of calls from sub-state Start, with
no condition on the samples: the first call returns `ROTARY_DIR_NONE`; and a
later call (here the one in situation `w2`, after the one in situation `w1`)
that returns a direction event sampled a pattern that differs from the
previous call's in exactly one phase bit, while a sample equal to the previous
one or differing from it in both bits returns `ROTARY_DIR_NONE`. -/
theorem events_only_on_single_bit_change (half_step : Bool)
    (hrotary : Rotary_HandleTypeDef W) (pre : List W) (w1 w2 : W) (post : List W)
    (hs : hrotary.state &&& 0x0F = R_START) :
    (∃ rs hfin,
      processCalls half_step (w1 :: post) hrotary = some (ROTARY_DIR_NONE :: rs, hfin)) ∧
    ∃ ra r1 r2 rb hfin,
      processCalls half_step (pre ++ w1 :: w2 :: post) hrotary =
        some (ra ++ r1 :: r2 :: rb, hfin) ∧
      ra.length = pre.length ∧
      (r2 ≠ ROTARY_DIR_NONE → exactlyOneBit (sampled hrotary w1) (sampled hrotary w2) = true) ∧
      (sampled hrotary w2 = sampled hrotary w1 ∨
          bothBits (sampled hrotary w1) (sampled hrotary w2) = true →
        r2 = ROTARY_DIR_NONE) := by
  have hv := valid_of_start half_step _ hs
  constructor
  · have hrun := processCalls_run half_step (w1 :: post) hrotary hv
    simp only [List.map_cons, events, finalState] at hrun
    have h0 : nextState half_step hrotary.state (sampled hrotary w1) &&& 0x30 =
        ROTARY_DIR_NONE := by
      show cell half_step (hrotary.state &&& 0x0F) (sampled hrotary w1) &&& 0x30 = _
      rw [hs]
      exact start_row_no_event half_step _ (sampled_lt_four hrotary w1)
    rw [h0] at hrun
    exact ⟨_, _, hrun⟩
  · have hm : (pre ++ w1 :: w2 :: post).map (sampled hrotary) =
        pre.map (sampled hrotary) ++
          (sampled hrotary w1 :: sampled hrotary w2 :: post.map (sampled hrotary)) := by
      simp
    have hrun := processCalls_run half_step (pre ++ w1 :: w2 :: post) hrotary hv
    rw [hm, events_append, finalState_append] at hrun
    simp only [events, finalState] at hrun
    have hva := finalState_valid half_step _ _ hv (sampled_all_lt hrotary pre)
    have hf := event_needs_edge half_step _ hva _ (sampled_lt_four hrotary w1) _
      (sampled_lt_four hrotary w2)
    refine ⟨_, _, _, _, _, hrun, ?_, hf.1, hf.2⟩
    rw [events_length, List.length_map]

theorem events_only_on_single_bit_change_witness :
    benchInit.state &&& 0x0F = R_START ∧
    ((∃ rs hfin,
      processCalls true (wiresOf 2 :: [wiresOf 1]) benchInit =
        some (ROTARY_DIR_NONE :: rs, hfin)) ∧
    ∃ ra r1 r2 rb hfin,
      processCalls true ([wiresOf 0] ++ wiresOf 2 :: wiresOf 3 :: [wiresOf 1]) benchInit =
        some (ra ++ r1 :: r2 :: rb, hfin) ∧
      ra.length = [wiresOf 0].length ∧
      (r2 ≠ ROTARY_DIR_NONE →
        exactlyOneBit (sampled benchInit (wiresOf 2)) (sampled benchInit (wiresOf 3)) = true) ∧
      (sampled benchInit (wiresOf 3) = sampled benchInit (wiresOf 2) ∨
          bothBits (sampled benchInit (wiresOf 2)) (sampled benchInit (wiresOf 3)) = true →
        r2 = ROTARY_DIR_NONE)) :=
  ⟨by decide,
    events_only_on_single_bit_change true benchInit [wiresOf 0] (wiresOf 2) (wiresOf 3)
      [wiresOf 1] (by decide)⟩

/-! ## Clean rotation -/

/-- Where a direction event leaves the machine: the sampled pattern and the
sub-state right after a call that returned an event. -/
theorem event_lands (half_step : Bool) :
    ∀ s, s < numStates half_step → ∀ p, p < 4 →
      cell half_step s p &&& 0x30 ≠ ROTARY_DIR_NONE →
      (half_step = false ∧ p = 3 ∧ cell half_step s p &&& 0x0F = 0) ∨
      (half_step = true ∧
        ((p = 0 ∧ cell half_step s p &&& 0x0F = 3) ∨
          (p = 3 ∧ cell half_step s p &&& 0x0F = 0))) := by
  cases half_step
  · have h : ∀ s, s < numStates false → ∀ p, p < 4 →
        cell false s p &&& 0x30 ≠ ROTARY_DIR_NONE →
        p = 3 ∧ cell false s p &&& 0x0F = 0 := by decide
    intro s hs p hp he
    exact Or.inl ⟨rfl, h s hs p hp he⟩
  · have h : ∀ s, s < numStates true → ∀ p, p < 4 →
        cell true s p &&& 0x30 ≠ ROTARY_DIR_NONE →
        (p = 0 ∧ cell true s p &&& 0x0F = 3) ∨ (p = 3 ∧ cell true s p &&& 0x0F = 0) := by
      decide
    intro s hs p hp he
    exact Or.inr ⟨rfl, h s hs p hp he⟩

/-- Splitting a run at one of its return values. -/
theorem events_split (half_step : Bool) (a : List Nat) :
    ∀ (ps : List Nat) (s e1 : Nat) (tl : List Nat),
      events half_step ps s = a ++ e1 :: tl →
      ∃ pa q rest, ps = pa ++ q :: rest ∧ pa.length = a.length ∧
        e1 = nextState half_step (finalState half_step pa s) q &&& 0x30 ∧
        tl = events half_step rest (nextState half_step (finalState half_step pa s) q) := by
  induction a with
  | nil =>
    intro ps s e1 tl h
    cases ps with
    | nil => simp [events] at h
    | cons q rest =>
      simp only [events, List.nil_append, List.cons.injEq] at h
      exact ⟨[], q, rest, rfl, rfl, h.1.symm, h.2.symm⟩
  | cons x a ih =>
    intro ps s e1 tl h
    cases ps with
    | nil => simp [events] at h
    | cons p ps =>
      simp only [events, List.cons_append, List.cons.injEq] at h
      obtain ⟨pa, q, rest, hps, hlen, he, ht⟩ := ih ps _ e1 tl h.2
      refine ⟨p :: pa, q, rest, ?_, ?_, he, ht⟩
      · rw [hps]; rfl
      · simp only [List.length_cons, hlen]

/-- In a list that starts with `z.length` zeros followed by a non-zero value,
the first non-zero value is at position `z.length`. -/
theorem first_nonzero_pos (z : List Nat) :
    ∀ (E : Nat) (T mid : List Nat) (e2 : Nat) (b : List Nat), E ≠ 0 → (∀ x ∈ z, x = 0) →
      z ++ E :: T = mid ++ e2 :: b → (∀ x ∈ mid, x = 0) → e2 ≠ 0 →
      mid.length = z.length := by
  induction z with
  | nil =>
    intro E T mid e2 b hE _ h hmid _
    cases mid with
    | nil => rfl
    | cons m mid =>
      simp only [List.nil_append, List.cons_append, List.cons.injEq] at h
      exact absurd (h.1.trans (hmid m (List.mem_cons_self m mid))) hE
  | cons x z ih =>
    intro E T mid e2 b hE hz h hmid he2
    cases mid with
    | nil =>
      simp only [List.nil_append, List.cons_append, List.cons.injEq] at h
      exact absurd (h.1.symm.trans (hz x (List.mem_cons_self x z))) he2
    | cons m mid =>
      simp only [List.cons_append, List.cons.injEq] at h
      simp only [List.length_cons]
      rw [ih E T mid e2 b hE (fun y hy => hz y (List.mem_cons_of_mem x hy)) h.2
        (fun y hy => hmid y (List.mem_cons_of_mem m hy)) he2]

/-- After an event of the full-step table, a clean rotation returns nothing
on its next three calls and an event on the fourth. -/
theorem full_step_after_event (cw : Bool) (s1 : Nat) (rest : List Nat)
    (hs1 : s1 &&& 0x0F = 0) (hch : List.Chain (RotStep cw) 3 rest) :
    (∀ x ∈ events false rest s1, x = 0) ∨
    ∃ E T, E ≠ 0 ∧ events false rest s1 = List.replicate 3 0 ++ E :: T := by
  have h0 : events false rest s1 = events false rest 0 :=
    (run_congr false rest s1 0 (by rw [hs1]; rfl)).1
  rw [h0]
  rcases rest with _ | ⟨x1, _ | ⟨x2, _ | ⟨x3, _ | ⟨x4, tl⟩⟩⟩⟩
  · exact Or.inl (by simp [events])
  · obtain ⟨h1, _⟩ := List.chain_cons.mp hch
    subst h1
    cases cw <;> exact Or.inl (by decide)
  · obtain ⟨h1, hch⟩ := List.chain_cons.mp hch
    obtain ⟨h2, _⟩ := List.chain_cons.mp hch
    subst h1; subst h2
    cases cw <;> exact Or.inl (by decide)
  · obtain ⟨h1, hch⟩ := List.chain_cons.mp hch
    obtain ⟨h2, hch⟩ := List.chain_cons.mp hch
    obtain ⟨h3, _⟩ := List.chain_cons.mp hch
    subst h1; subst h2; subst h3
    cases cw <;> exact Or.inl (by decide)
  · obtain ⟨h1, hch⟩ := List.chain_cons.mp hch
    obtain ⟨h2, hch⟩ := List.chain_cons.mp hch
    obtain ⟨h3, hch⟩ := List.chain_cons.mp hch
    obtain ⟨h4, _⟩ := List.chain_cons.mp hch
    subst h1; subst h2; subst h3; subst h4
    cases cw
    · exact Or.inr ⟨ROTARY_DIR_CCW, events false tl ROTARY_DIR_CCW, by decide, rfl⟩
    · exact Or.inr ⟨ROTARY_DIR_CW, events false tl ROTARY_DIR_CW, by decide, rfl⟩

/-- After an event of the half-step table, a clean rotation returns nothing
on its next call and an event on the one after. -/
theorem half_step_after_event (cw : Bool) (s1 q : Nat) (rest : List Nat)
    (hpost : (q = 0 ∧ s1 &&& 0x0F = 3) ∨ (q = 3 ∧ s1 &&& 0x0F = 0))
    (hch : List.Chain (RotStep cw) q rest) :
    (∀ x ∈ events true rest s1, x = 0) ∨
    ∃ E T, E ≠ 0 ∧ events true rest s1 = List.replicate 1 0 ++ E :: T := by
  rcases hpost with ⟨hq, hs1⟩ | ⟨hq, hs1⟩
  · subst hq
    have h0 : events true rest s1 = events true rest 3 :=
      (run_congr true rest s1 3 (by rw [hs1]; rfl)).1
    rw [h0]
    rcases rest with _ | ⟨x1, _ | ⟨x2, tl⟩⟩
    · exact Or.inl (by simp [events])
    · obtain ⟨h1, _⟩ := List.chain_cons.mp hch
      subst h1
      cases cw <;> exact Or.inl (by decide)
    · obtain ⟨h1, hch⟩ := List.chain_cons.mp hch
      obtain ⟨h2, _⟩ := List.chain_cons.mp hch
      subst h1; subst h2
      cases cw
      · exact Or.inr ⟨ROTARY_DIR_CCW, events true tl ROTARY_DIR_CCW, by decide, rfl⟩
      · exact Or.inr ⟨ROTARY_DIR_CW, events true tl ROTARY_DIR_CW, by decide, rfl⟩
  · subst hq
    have h0 : events true rest s1 = events true rest 0 :=
      (run_congr true rest s1 0 (by rw [hs1]; rfl)).1
    rw [h0]
    rcases rest with _ | ⟨x1, _ | ⟨x2, tl⟩⟩
    · exact Or.inl (by simp [events])
    · obtain ⟨h1, _⟩ := List.chain_cons.mp hch
      subst h1
      cases cw <;> exact Or.inl (by decide)
    · obtain ⟨h1, hch⟩ := List.chain_cons.mp hch
      obtain ⟨h2, _⟩ := List.chain_cons.mp hch
      subst h1; subst h2
      cases cw
      · exact Or.inr ⟨ROTARY_DIR_CCW, events true tl (3 ||| ROTARY_DIR_CCW), by decide, rfl⟩
      · exact Or.inr ⟨ROTARY_DIR_CW, events true tl (3 ||| ROTARY_DIR_CW), by decide, rfl⟩

theorem cleanRotation_chain (cw : Bool) (ps : List Nat)
    (h : cleanRotation cw ps = true) : List.Chain' (RotStep cw) ps := by
  have hc := (chainB_iff (fun q p => p == rotNext cw q) ps).mp h
  exact hc.imp (fun a b hab => by simpa using hab)

/-- C19. For either table and either direction (`cw = true`: the cycle
0 -> 2 -> 3 -> 1 -> 0, `cw = false`: the cycle 0 -> 1 -> 3 -> 2 -> 0): in a
run of calls from sub-state Start whose first sample is arbitrary and whose
every later sample is the successor of the previous one on the cycle, two
calls that return a direction event with only `ROTARY_DIR_NONE` returned
between them are exactly 4 calls apart with the full-step table and exactly 2
calls apart with the half-step table. -/
theorem clean_rotation_event_spacing (half_step cw : Bool)
    (hrotary : Rotary_HandleTypeDef W) (ws : List W)
    (hs : hrotary.state &&& 0x0F = R_START)
    (hrot : cleanRotation cw (ws.map (sampled hrotary)) = true) :
    ∃ rs hfin, processCalls half_step ws hrotary = some (rs, hfin) ∧
      ∀ a e1 mid e2 b, rs = a ++ e1 :: (mid ++ e2 :: b) →
        e1 ≠ ROTARY_DIR_NONE → e2 ≠ ROTARY_DIR_NONE →
        (∀ x ∈ mid, x = ROTARY_DIR_NONE) →
        mid.length + 1 = (if half_step then 2 else 4) := by
  have hv := valid_of_start half_step _ hs
  refine ⟨_, _, processCalls_run half_step ws hrotary hv, ?_⟩
  intro a e1 mid e2 b heq he1 he2 hmid
  obtain ⟨pa, q, rest, hP, _, hE1, htl⟩ := events_split half_step a _ _ e1 _ heq
  have hlt := sampled_all_lt hrotary ws
  rw [hP] at hlt
  have hch := cleanRotation_chain cw _ hrot
  rw [hP] at hch
  have hch2 : List.Chain (RotStep cw) q rest := hch.right_of_append
  have hva := finalState_valid half_step pa _ hv
    (fun x hx => hlt x (List.mem_append_left _ hx))
  have hq : q < 4 := hlt q (by simp)
  rw [hE1] at he1
  have hmem : e2 ∈ mid ++ e2 :: b := by simp
  rcases event_lands half_step _ hva q hq he1 with ⟨hh, hq3, hsub⟩ | ⟨hh, hpost⟩
  · subst hh; subst hq3
    rcases full_step_after_event cw
        (nextState false (finalState false pa hrotary.state) 3) rest hsub hch2 with
      hall | ⟨E, T, hE, hev⟩
    · rw [htl] at hmem
      exact absurd (hall e2 hmem) he2
    · rw [hev] at htl
      have hl := first_nonzero_pos _ E T mid e2 b hE (by simp) htl.symm hmid he2
      simp [hl]
  · subst hh
    rcases half_step_after_event cw
        (nextState true (finalState true pa hrotary.state) q) q rest hpost hch2 with
      hall | ⟨E, T, hE, hev⟩
    · rw [htl] at hmem
      exact absurd (hall e2 hmem) he2
    · rw [hev] at htl
      have hl := first_nonzero_pos _ E T mid e2 b hE (by simp) htl.symm hmid he2
      simp [hl]

theorem clean_rotation_event_spacing_witness :
    benchInit.state &&& 0x0F = R_START ∧
    cleanRotation true (([0, 2, 3, 1, 0, 2, 3, 1, 0, 2, 3].map wiresOf).map
      (sampled benchInit)) = true ∧
    (processCalls false ([0, 2, 3, 1, 0, 2, 3, 1, 0, 2, 3].map wiresOf) benchInit).map
        (fun r => r.1) =
      some [0, 0, 0, 0, 0, 0, ROTARY_DIR_CW, 0, 0, 0, ROTARY_DIR_CW] ∧
    ∃ rs hfin,
      processCalls false ([0, 2, 3, 1, 0, 2, 3, 1, 0, 2, 3].map wiresOf) benchInit =
        some (rs, hfin) ∧
      ∀ a e1 mid e2 b, rs = a ++ e1 :: (mid ++ e2 :: b) →
        e1 ≠ ROTARY_DIR_NONE → e2 ≠ ROTARY_DIR_NONE →
        (∀ x ∈ mid, x = ROTARY_DIR_NONE) →
        mid.length + 1 = (if false then 2 else 4) :=
  ⟨by decide, by decide, by decide,
    clean_rotation_event_spacing false true benchInit
      ([0, 2, 3, 1, 0, 2, 3, 1, 0, 2, 3].map wiresOf) (by decide) (by decide)⟩

/-! ## Direction -/

/-- An event of the wrong direction on the second of two successive calls
needs a backward edge between their samples. -/
theorem wrongWay_needs_back_edge (half_step cw : Bool) :
    ∀ s, s < numStates half_step → ∀ p1, p1 < 4 → ∀ p2, p2 < 4 →
      (p2 == p1 || p2 == rotNext cw p1) = true →
      cell half_step (cell half_step s p1 &&& 0x0F) p2 &&& 0x30 ≠ wrongWay cw := by
  cases half_step <;> cases cw <;> decide

theorem oneWay_run (half_step cw : Bool) (rest : List Nat) :
    ∀ s0 q, s0 &&& 0x0F < numStates half_step → q < 4 →
      List.Chain (fun q p => (p == q || p == rotNext cw q) = true) q rest →
      (∀ x ∈ rest, x < 4) →
      ∀ r ∈ events half_step rest (nextState half_step s0 q), r ≠ wrongWay cw := by
  induction rest with
  | nil =>
    intro s0 q _ _ _ _ r hr
    simp [events] at hr
  | cons p rest ih =>
    intro s0 q hv hq hch hlt r hr
    have hc := List.chain_cons.mp hch
    have hp : p < 4 := hlt p (List.mem_cons_self p rest)
    rcases List.mem_cons.mp hr with h | h
    · rw [h]
      exact wrongWay_needs_back_edge half_step cw _ hv q hq p hp hc.1
    · exact ih (nextState half_step s0 q) p (nextState_valid half_step s0 q hv hq) hp hc.2
        (fun x hx => hlt x (List.mem_cons_of_mem p hx)) r h

/-- C21. For either table and either direction (`cw = true`: the cycle
0 -> 2 -> 3 -> 1 -> 0, `cw = false`: the reverse cycle 0 -> 1 -> 3 -> 2 -> 0):
in a run of calls from sub-state Start in which each sample is equal to the
previous one or its successor on the cycle, the run succeeds and no call
returns the event of the other direction: never `ROTARY_DIR_CCW` (0x20) on the
clockwise cycle, never `ROTARY_DIR_CW` (0x10) on the reverse cycle. -/
theorem direction_sound (half_step cw : Bool) (hrotary : Rotary_HandleTypeDef W)
    (ws : List W) (hs : hrotary.state &&& 0x0F = R_START)
    (hseq : oneWay cw (ws.map (sampled hrotary)) = true) :
    ∃ rs hfin, processCalls half_step ws hrotary = some (rs, hfin) ∧
      ∀ r ∈ rs, r ≠ (if cw then ROTARY_DIR_CCW else ROTARY_DIR_CW) := by
  have hv := valid_of_start half_step _ hs
  refine ⟨_, _, processCalls_run half_step ws hrotary hv, ?_⟩
  have hlt := sampled_all_lt hrotary ws
  have hch := (chainB_iff _ _).mp hseq
  intro r hr
  cases hP : ws.map (sampled hrotary) with
  | nil =>
    rw [hP] at hr
    simp [events] at hr
  | cons p0 rest =>
    rw [hP] at hr hlt hch
    have hp0 : p0 < 4 := hlt p0 (List.mem_cons_self p0 rest)
    rcases List.mem_cons.mp hr with h | h
    · have h0 : nextState half_step hrotary.state p0 &&& 0x30 = ROTARY_DIR_NONE := by
        show cell half_step (hrotary.state &&& 0x0F) p0 &&& 0x30 = _
        rw [hs]
        exact start_row_no_event half_step p0 hp0
      rw [h, h0]
      cases cw <;> decide
    · exact oneWay_run half_step cw rest hrotary.state p0 hv hp0 hch
        (fun x hx => hlt x (List.mem_cons_of_mem p0 hx)) r h

theorem direction_sound_witness :
    benchInit.state &&& 0x0F = R_START ∧
    oneWay true (([0, 2, 2, 3, 1, 0, 0, 2, 3].map wiresOf).map (sampled benchInit)) = true ∧
    (processCalls true ([0, 2, 2, 3, 1, 0, 0, 2, 3].map wiresOf) benchInit).map
        (fun r => r.1) =
      some [0, 0, 0, ROTARY_DIR_CW, 0, ROTARY_DIR_CW, 0, 0, ROTARY_DIR_CW] ∧
    ∃ rs hfin,
      processCalls true ([0, 2, 2, 3, 1, 0, 0, 2, 3].map wiresOf) benchInit =
        some (rs, hfin) ∧
      ∀ r ∈ rs, r ≠ (if true then ROTARY_DIR_CCW else ROTARY_DIR_CW) :=
  ⟨by decide, by decide, by decide,
    direction_sound true true benchInit ([0, 2, 2, 3, 1, 0, 0, 2, 3].map wiresOf)
      (by decide) (by decide)⟩

/-! ## Spacing of events -/

/-- How `callsToEvent` moves along the table: a cell with an event flag is in
a row one call away from an event and leads to a row a full count away; any
cell leads to a row at most one call nearer. -/
theorem callsToEvent_facts (half_step : Bool) :
    callsToEvent half_step 0 = (if half_step then 2 else 4) ∧
    ∀ s, s < numStates half_step → ∀ p, p < 4 →
      callsToEvent half_step s ≤ callsToEvent half_step (cell half_step s p &&& 0x0F) + 1 ∧
      (cell half_step s p &&& 0x30 ≠ ROTARY_DIR_NONE →
        callsToEvent half_step s ≤ 1 ∧
        callsToEvent half_step (cell half_step s p &&& 0x0F) =
          (if half_step then 2 else 4)) := by
  cases half_step <;> decide

/-- A call that returns an event is at least `callsToEvent` calls into the run. -/
theorem event_not_before (half_step : Bool) (mid : List Nat) :
    ∀ (ps : List Nat) (s e : Nat) (b : List Nat),
      s &&& 0x0F < numStates half_step → (∀ x ∈ ps, x < 4) →
      events half_step ps s = mid ++ e :: b → e ≠ ROTARY_DIR_NONE →
      callsToEvent half_step (s &&& 0x0F) ≤ mid.length + 1 := by
  induction mid with
  | nil =>
    intro ps s e b hv hlt h he
    cases ps with
    | nil => simp [events] at h
    | cons p ps =>
      simp only [events, List.nil_append, List.cons.injEq] at h
      have hp : p < 4 := hlt p (List.mem_cons_self p ps)
      rw [← h.1] at he
      have hf := ((callsToEvent_facts half_step).2 _ hv p hp).2 he
      simp only [List.length_nil, Nat.zero_add]
      exact hf.1
  | cons m mid ih =>
    intro ps s e b hv hlt h he
    cases ps with
    | nil => simp [events] at h
    | cons p ps =>
      simp only [events, List.cons_append, List.cons.injEq] at h
      have hp : p < 4 := hlt p (List.mem_cons_self p ps)
      have hstep := ((callsToEvent_facts half_step).2 _ hv p hp).1
      have hrec := ih ps (nextState half_step s p) e b
        (nextState_valid half_step s p hv hp)
        (fun x hx => hlt x (List.mem_cons_of_mem p hx)) h.2 he
      have hrec1 : callsToEvent half_step (cell half_step (s &&& 0x0F) p &&& 0x0F) ≤
          mid.length + 1 := hrec
      simp only [List.length_cons]
      omega

/-- C22. For either table and every run of calls from sub-state Start, with
no condition on the samples: the run succeeds; a call that returns a direction
event is at least the 4th call of the run with the full-step table and at
least the 2nd with the half-step table; and two calls that both return a
direction event are at least 4 calls apart with the full-step table and at
least 2 calls apart with the half-step table. -/
theorem min_event_spacing (half_step : Bool) (hrotary : Rotary_HandleTypeDef W)
    (ws : List W) (hs : hrotary.state &&& 0x0F = R_START) :
    ∃ rs hfin, processCalls half_step ws hrotary = some (rs, hfin) ∧
      (∀ mid e b, rs = mid ++ e :: b → e ≠ ROTARY_DIR_NONE →
        (if half_step then 2 else 4) ≤ mid.length + 1) ∧
      (∀ a e1 mid e2 b, rs = a ++ e1 :: (mid ++ e2 :: b) →
        e1 ≠ ROTARY_DIR_NONE → e2 ≠ ROTARY_DIR_NONE →
        (if half_step then 2 else 4) ≤ mid.length + 1) := by
  have hv := valid_of_start half_step _ hs
  have hlt := sampled_all_lt hrotary ws
  have hf := callsToEvent_facts half_step
  refine ⟨_, _, processCalls_run half_step ws hrotary hv, ?_, ?_⟩
  · intro mid e b heq he
    have h := event_not_before half_step mid _ _ e b hv hlt heq he
    rw [hs] at h
    have h0 : callsToEvent half_step R_START = (if half_step then 2 else 4) := hf.1
    rw [h0] at h
    exact h
  · intro a e1 mid e2 b heq he1 he2
    obtain ⟨pa, q, rest, hP, _, hE1, htl⟩ := events_split half_step a _ _ e1 _ heq
    rw [hP] at hlt
    have hva := finalState_valid half_step pa _ hv
      (fun x hx => hlt x (List.mem_append_left _ hx))
    have hq : q < 4 := hlt q (by simp)
    rw [hE1] at he1
    have hland := ((hf.2 _ hva q hq).2 he1).2
    have h := event_not_before half_step mid rest
      (nextState half_step (finalState half_step pa hrotary.state) q) e2 b
      (nextState_valid half_step _ q hva hq)
      (fun x hx => hlt x (List.mem_append_right _ (List.mem_cons_of_mem q hx)))
      htl.symm he2
    have h1 : callsToEvent half_step
        (cell half_step (finalState half_step pa hrotary.state &&& 0x0F) q &&& 0x0F) ≤
        mid.length + 1 := h
    rw [hland] at h1
    exact h1

theorem min_event_spacing_witness :
    benchInit.state &&& 0x0F = R_START ∧
    (processCalls false ([1, 0, 2, 3, 2, 0, 1, 3].map wiresOf) benchInit).map
        (fun r => r.1) =
      some [0, 0, 0, ROTARY_DIR_CW, 0, 0, 0, ROTARY_DIR_CCW] ∧
    ∃ rs hfin,
      processCalls false ([1, 0, 2, 3, 2, 0, 1, 3].map wiresOf) benchInit =
        some (rs, hfin) ∧
      (∀ mid e b, rs = mid ++ e :: b → e ≠ ROTARY_DIR_NONE →
        (if false then 2 else 4) ≤ mid.length + 1) ∧
      (∀ a e1 mid e2 b, rs = a ++ e1 :: (mid ++ e2 :: b) →
        e1 ≠ ROTARY_DIR_NONE → e2 ≠ ROTARY_DIR_NONE →
        (if false then 2 else 4) ≤ mid.length + 1) :=
  ⟨by decide, by decide,
    min_event_spacing false benchInit ([1, 0, 2, 3, 2, 0, 1, 3].map wiresOf) (by decide)⟩

end Rotary
